import Mathlib

/-!
# RBL query service (`main.go`): shallow embedding and verification

The service has one source file, `main.go`.  It defines `ReverseIPAddress` and the
`/query/:ip` handler registered in `main`.  Both are embedded below as pure functions.

The handler calls into the Go standard library (`strings.Split`, `strings.Join`,
`net.ParseIP`, `net.IP.To4`, `net.IP.String`, `net.LookupIP`, `fmt.Sprintf`) and into
`encoding/json` through gin's `c.JSON`.  Those library functions are embedded from the
library's own code, in the section "Go standard library"; DNS resolution itself is an
input of the model (`Resolver`).

Conventions.
* A Go `string` is a `List Char` (`GoString`), its text taken as valid UTF-8.  The
  library code below looks at single bytes only to compare them with ASCII characters,
  which no byte of a longer character equals, so a character can stand for its bytes.
* A Go `[]byte` / `net.IP` is a `List Nat` whose elements are bytes (`< 256`); the nil
  slice and the empty slice are both `[]` where only `len` is observed.
* A Go `[]net.IP` whose nil-ness is observable (JSON encoding) is an `Option (List IP)`,
  `none` being the nil slice.
* A Go `error` is an `Option GoString`, `none` being `nil` and `some m` an error whose
  `Error()` text is `m`.
-/

namespace AtmailRbl

/-! ## Go standard library -/

/-- Go `string`, as its sequence of characters. -/
abbrev GoString := List Char

/-- Go `net.IP`, a byte slice; each element is a byte value. -/
abbrev IP := List Nat

/-- Every element of the slice is a byte. -/
def validBytes (ip : IP) : Prop := ∀ b ∈ ip, b < 256

instance (ip : IP) : Decidable (validBytes ip) := by
  unfold validBytes; infer_instance

/-! ### package `strings` -/

/-- Go `strings.Count(s, sep)` for a one-byte separator. -/
def Count : GoString → Char → Nat
  | [], _ => 0
  | c :: cs, sep => (if c = sep then 1 else 0) + Count cs sep

/-- Go `strings.Index(s, sep)` for a one-byte separator; `none` stands for `-1`. -/
def Index : GoString → Char → Option Nat
  | [], _ => none
  | c :: cs, sep => if c = sep then some 0 else (Index cs sep).map (· + 1)

/-- The loop of Go `strings.genSplit` (with `sepSave = 0`, one-byte separator): the
first argument is `n - i`, the number of separators still to be cut at. -/
def genSplit : Nat → GoString → Char → List GoString
  | 0, s, _ => [s]
  | k + 1, s, sep =>
    match Index s sep with
    | none => [s]
    | some m => s.take m :: genSplit k (s.drop (m + 1)) sep

/-- Go `strings.Split(s, sep)` for a one-byte separator (`main.go` splits on `"."` and
on `","`): `n = Count(s, sep) + 1` fields. -/
def Split (s : GoString) (sep : Char) : List GoString :=
  genSplit (Count s sep) s sep

/-- Go `strings.Join(elems, sep)`. -/
def Join : List GoString → GoString → GoString
  | [], _ => []
  | e :: rest, sep => rest.foldl (fun b s => b ++ sep ++ s) e

/-! ### package `net`: addresses -/

/-- Go `net.v4InV6Prefix`. -/
def v4InV6Prefix : List Nat := [0, 0, 0, 0, 0, 0, 0, 0, 0, 0, 0xff, 0xff]

/-- Go `net.IPv4(a, b, c, d)`: the 16-byte form of the IPv4 address. -/
def IPv4 (a b c d : Nat) : IP := v4InV6Prefix ++ [a, b, c, d]

/-- Go `net.isZeros`. -/
def isZeros (p : List Nat) : Bool := p.all (· == 0)

/-- Go `net.IP.To4`; `none` is the nil result. -/
def IP.To4 (ip : IP) : Option IP :=
  if ip.length = 4 then some ip
  else if ip.length = 16 ∧ isZeros (ip.take 10) = true ∧ ip.getD 10 0 = 0xff
      ∧ ip.getD 11 0 = 0xff then
    some ((ip.drop 12).take 4)
  else none

/-- The byte `v + '0'`. -/
def digitChar (v : Nat) : Char := Char.ofNat (v + 48)

/-- Go `net.ubtoa`: the decimal text of a byte. -/
def ubtoa (v : Nat) : GoString :=
  if v < 10 then [digitChar v]
  else if v < 100 then [digitChar (v / 10), digitChar (v % 10)]
  else [digitChar (v / 100), digitChar ((v / 10) % 10), digitChar (v % 10)]

/-- The dotted-decimal text `a.b.c.d` that `net.IP.String` builds for an IPv4 address. -/
def dotted (a b c d : Nat) : GoString :=
  ubtoa a ++ '.' :: (ubtoa b ++ '.' :: (ubtoa c ++ '.' :: ubtoa d))

/-- Go `net.hexDigit[v]`. -/
def hexDigit (v : Nat) : Char :=
  if v < 10 then Char.ofNat (v + 48) else Char.ofNat (v - 10 + 97)

/-- Go `net.hexString`. -/
def hexString (b : List Nat) : GoString :=
  b.flatMap (fun tn => [hexDigit (tn / 16), hexDigit (tn % 16)])

/-- Go `net.appendHex(nil, i)`: hexadecimal text without leading zeros. -/
def appendHex (i : Nat) : GoString :=
  if i = 0 then ['0']
  else [7, 6, 5, 4, 3, 2, 1, 0].foldl
    (fun dst j => let v := i / 16 ^ j; if v > 0 then dst ++ [hexDigit (v % 16)] else dst) []

/-- Inner loop of the zero-run search in `net.IP.String`: advances `j` by 2 while the
16-bit group at `j` is zero.  The loops of `String` advance by 2 up to 16, so 8 units
of fuel run each to its end. -/
def zeroRunEnd (p : IP) : Nat → Nat → Nat
  | 0, j => j
  | fuel + 1, j =>
    if j < 16 ∧ p.getD j 0 = 0 ∧ p.getD (j + 1) 0 = 0 then zeroRunEnd p fuel (j + 2) else j

/-- Outer loop of the zero-run search in `net.IP.String`; the state is `(e0, e1)`. -/
def longestZeroRun (p : IP) : Nat → Nat → Int × Int → Int × Int
  | 0, _, e => e
  | fuel + 1, i, e =>
    if i < 16 then
      let j := zeroRunEnd p 8 i
      if j > i ∧ (j : Int) - i > e.2 - e.1 then longestZeroRun p fuel (j + 2) (i, j)
      else longestZeroRun p fuel (i + 2) e
    else e

/-- Printing loop of `net.IP.String` for a 16-byte address. -/
def printGroups (p : IP) (e0 e1 : Int) : Nat → Nat → GoString → GoString
  | 0, _, b => b
  | fuel + 1, i, b =>
    if i < 16 then
      if (i : Int) = e0 then
        let b := b ++ [':', ':']
        let i := e1.toNat
        if i ≥ 16 then b
        else printGroups p e0 e1 fuel (i + 2) (b ++ appendHex (p.getD i 0 * 256 + p.getD (i + 1) 0))
      else
        let b := if i > 0 then b ++ [':'] else b
        printGroups p e0 e1 fuel (i + 2) (b ++ appendHex (p.getD i 0 * 256 + p.getD (i + 1) 0))
    else b

/-- Go `net.IP.String`. -/
def IP.String (ip : IP) : GoString :=
  if ip.length = 0 then "<nil>".toList
  else
    let p4 := (IP.To4 ip).getD []
    if p4.length = 4 then
      dotted (p4.getD 0 0) (p4.getD 1 0) (p4.getD 2 0) (p4.getD 3 0)
    else if ip.length ≠ 16 then '?' :: hexString ip
    else
      let e := longestZeroRun ip 8 0 (-1, -1)
      let e := if e.2 - e.1 ≤ 2 then ((-1 : Int), (-1 : Int)) else e
      printGroups ip e.1 e.2 8 0 []

/-! ### package `net`: parsing

`parseIPv4`, `parseIPv6`, `dtoi`, `xtoi` and `ParseIP` are written after `net/ip.go`
and `net/parse.go`.  The flag `strict` selects the texts accepted:
* `strict = true`: the parser of current Go releases, where `net.ParseIP` goes through
  `netip.ParseAddr` and refuses a zone: an IPv4 octet written with a leading zero is
  rejected, and so is an IPv6 group of more than 4 hexadecimal digits;
* `strict = false`: the parser of the releases before Go 1.17, which has neither check
  (releases in between have the first check only).
With `strict = true` the functions below accept the same texts, with the same result, as
`netip.ParseAddr` followed by `As16`: its IPv4 fields are these octets, its groups of 1 to
4 hexadecimal digits are the groups `xtoi` reads, and a text with `%` is accepted by
neither. -/

/-- Go `net.big`, the bound of `dtoi` and `xtoi`. -/
def big : Nat := 0xFFFFFF

/-- The byte is one of `'0'..'9'`. -/
def isDigit (c : Char) : Bool := decide (48 ≤ c.toNat ∧ c.toNat ≤ 57)

/-- Loop of Go `net.dtoi`, with the accumulator `n` and the position `i`. -/
def dtoiLoop : GoString → Nat → Nat → Nat × Nat × Bool
  | [], n, i => if i = 0 then (0, 0, false) else (n, i, true)
  | c :: cs, n, i =>
    if isDigit c then
      let n := n * 10 + (c.toNat - 48)
      if n ≥ big then (big, i, false) else dtoiLoop cs n (i + 1)
    else if i = 0 then (0, 0, false) else (n, i, true)

/-- Go `net.dtoi`: decimal to integer; returns number, characters consumed, success. -/
def dtoi (s : GoString) : Nat × Nat × Bool := dtoiLoop s 0 0

/-- The value of a hexadecimal digit, if the byte is one. -/
def hexVal (c : Char) : Option Nat :=
  if 48 ≤ c.toNat ∧ c.toNat ≤ 57 then some (c.toNat - 48)
  else if 97 ≤ c.toNat ∧ c.toNat ≤ 102 then some (c.toNat - 97 + 10)
  else if 65 ≤ c.toNat ∧ c.toNat ≤ 70 then some (c.toNat - 65 + 10)
  else none

/-- Loop of Go `net.xtoi`, with the accumulator `n` and the position `i`. -/
def xtoiLoop : GoString → Nat → Nat → Nat × Nat × Bool
  | [], n, i => if i = 0 then (0, i, false) else (n, i, true)
  | c :: cs, n, i =>
    match hexVal c with
    | some v =>
      let n := n * 16 + v
      if n ≥ big then (0, i, false) else xtoiLoop cs n (i + 1)
    | none => if i = 0 then (0, i, false) else (n, i, true)

/-- Go `net.xtoi`: hexadecimal to integer; returns number, characters consumed,
success. -/
def xtoi (s : GoString) : Nat × Nat × Bool := xtoiLoop s 0 0

/-- Loop of Go `net.parseIPv4`: the first argument counts the octets still to read,
`i` is the loop index, `s` the rest of the text, `p` the four bytes.  `none` is the
`return nil` inside the loop. -/
def parseIPv4Loop (strict : Bool) : Nat → Nat → GoString → IP → Option (GoString × IP)
  | 0, _, s, p => some (s, p)
  | k + 1, i, s, p =>
    if s.length = 0 then none
    else
      let s1 : Option GoString :=
        if i > 0 then (if s.head? ≠ some '.' then none else some (s.drop 1)) else some s
      match s1 with
      | none => none
      | some s =>
        match dtoi s with
        | (n, c, ok) =>
          if !ok || decide (n > 0xFF) then none
          else if strict && decide (c > 1) && decide (s.head? = some '0') then none
          else parseIPv4Loop strict k (i + 1) (s.drop c) (p.set i n)

/-- Go `net.parseIPv4`; `[]` is the nil result. -/
def parseIPv4 (strict : Bool) (s : GoString) : IP :=
  match parseIPv4Loop strict 4 0 s [0, 0, 0, 0] with
  | some (rest, p) =>
    if rest.length ≠ 0 then []
    else IPv4 (p.getD 0 0) (p.getD 1 0) (p.getD 2 0) (p.getD 3 0)
  | none => []

/-- The state of the loop of `net.parseIPv6` when it is left by `break` or by its
condition: the bytes, the index `i`, the rest of the text and `ellipsis`. -/
structure V6State where
  ip : IP
  i : Nat
  s : GoString
  ellipsis : Int
deriving DecidableEq

/-- Loop `for i < IPv6len` of Go `net.parseIPv6`.  Every iteration that continues
advances `i` by 2, so 8 units of fuel run the loop to its end (`parseIPv6Loop_fuel`).
`none` is a `return nil` inside the loop.  With `strict`, a group of more than 4
hexadecimal digits is refused, as in `netip.parseIPv6`. -/
def parseIPv6Loop (strict : Bool) : Nat → V6State → Option V6State
  | 0, st => some st
  | fuel + 1, st =>
    if st.i < 16 then
      match xtoi st.s with
      | (n, c, ok) =>
        if !ok || decide (n > 0xFFFF) then none
        else if strict && decide (c > 4) then none
        else if c < st.s.length ∧ st.s.getD c ' ' = '.' then
          if st.ellipsis < 0 ∧ st.i ≠ 16 - 4 then none
          else if st.i + 4 > 16 then none
          else
            let ip4 := parseIPv4 strict st.s
            if ip4.length = 0 then none
            else
              let ip := (((st.ip.set st.i (ip4.getD 12 0)).set (st.i + 1) (ip4.getD 13 0)).set
                (st.i + 2) (ip4.getD 14 0)).set (st.i + 3) (ip4.getD 15 0)
              some { ip := ip, i := st.i + 4, s := [], ellipsis := st.ellipsis }
        else
          let ip := (st.ip.set st.i (n / 256)).set (st.i + 1) (n % 256)
          let i := st.i + 2
          let s := st.s.drop c
          if s.length = 0 then some { ip := ip, i := i, s := s, ellipsis := st.ellipsis }
          else if s.head? ≠ some ':' ∨ s.length = 1 then none
          else
            let s := s.drop 1
            if s.head? = some ':' then
              if st.ellipsis ≥ 0 then none
              else
                let s := s.drop 1
                if s.length = 0 then some { ip := ip, i := i, s := s, ellipsis := i }
                else parseIPv6Loop strict fuel { ip := ip, i := i, s := s, ellipsis := i }
            else parseIPv6Loop strict fuel { ip := ip, i := i, s := s, ellipsis := st.ellipsis }
    else some st

/-- The two loops of Go `net.parseIPv6` that expand the ellipsis: the bytes
`ip[ellipsis:i]` move up by `n = 16 - i`, then `ip[ellipsis:ellipsis+n]` is zeroed. -/
def expandEllipsis (ip : IP) (i ellipsis : Nat) : IP :=
  let n := 16 - i
  let moved := ((List.range (i - ellipsis)).map (fun k => i - 1 - k)).foldl
    (fun ip j => ip.set (j + n) (ip.getD j 0)) ip
  ((List.range n).map (fun k => ellipsis + n - 1 - k)).foldl (fun ip j => ip.set j 0) moved

/-- Go `net.parseIPv6`; `[]` is the nil result. -/
def parseIPv6 (strict : Bool) (s : GoString) : IP :=
  let ip0 : IP := List.replicate 16 0
  let lead : Bool := decide (s.length ≥ 2 ∧ s.getD 0 ' ' = ':' ∧ s.getD 1 ' ' = ':')
  let ellipsis : Int := if lead then 0 else -1
  let s := if lead then s.drop 2 else s
  if lead ∧ s.length = 0 then ip0
  else
    match parseIPv6Loop strict 8 { ip := ip0, i := 0, s := s, ellipsis := ellipsis } with
    | none => []
    | some st =>
      if st.s.length ≠ 0 then []
      else if st.i < 16 then
        if st.ellipsis < 0 then []
        else expandEllipsis st.ip st.i st.ellipsis.toNat
      else if st.ellipsis ≥ 0 then []
      else st.ip

/-- The scan of Go `net.ParseIP` for the first `'.'` or `':'`: `s` is the whole text,
the last argument what is still to scan. -/
def ParseIPScan (strict : Bool) (s : GoString) : GoString → IP
  | [] => []
  | c :: cs =>
    if c = '.' then parseIPv4 strict s
    else if c = ':' then parseIPv6 strict s
    else ParseIPScan strict s cs

/-- Go `net.ParseIP`; `[]` is the nil result. -/
def ParseIP (strict : Bool) (s : GoString) : IP := ParseIPScan strict s s

/-! ### package `net`: lookup -/

/-- The DNS environment of one request: `resolver k host` is what the resolver
(`net.DefaultResolver.LookupIPAddr`) answers to the lookup of `host` issued after `k`
earlier lookups of the request: the resolved addresses or an error.  Nothing is
assumed about it; in particular the same name may resolve differently each time. -/
abbrev Resolver := Nat → GoString → Except GoString (List IP)

/-- Go `net.LookupIP(host)`, with its effect on the network: `asked` is the log of the
names the request has looked up so far, oldest first.  The call asks the resolver for
`host`, and this adds `host` to the log; on an error it returns `nil, err`, otherwise a
freshly made (non-nil) slice holding the addresses.  The result is the pair returned
and the log after the call. -/
def LookupIP (resolver : Resolver) (asked : List GoString) (host : GoString) :
    (Option (List IP) × Option GoString) × List GoString :=
  match resolver asked.length host with
  | .error e => ((none, some e), asked ++ [host])
  | .ok addrs => ((some addrs, none), asked ++ [host])

/-! ### package `encoding/json` (as used by gin's `c.JSON`) -/

/-- The byte `"`. -/
def dquote : Char := Char.ofNat 34

/-- The byte `\`. -/
def backslash : Char := Char.ofNat 92

/-- What `encoding/json` (with `escapeHTML`) writes for one character of valid UTF-8
text inside a string: `"` and `\` get a backslash; backspace, form feed, newline,
carriage return and tab their short escape (`\b`, `\f`, `\n`, `\r`, `\t`); other
control characters and `<`, `>`, `&` the form `\u00XX`; U+2028 and U+2029 the form
`\u202X`; everything else is copied. -/
def jsonEscapeChar (c : Char) : GoString :=
  if c = backslash ∨ c = dquote then [backslash, c]
  else if c.toNat = 8 then [backslash, 'b']
  else if c.toNat = 12 then [backslash, 'f']
  else if c.toNat = 10 then [backslash, 'n']
  else if c.toNat = 13 then [backslash, 'r']
  else if c.toNat = 9 then [backslash, 't']
  else if c.toNat < 32 ∨ c = '<' ∨ c = '>' ∨ c = '&' then
    [backslash, 'u', '0', '0', hexDigit (c.toNat / 16), hexDigit (c.toNat % 16)]
  else if c.toNat = 0x2028 ∨ c.toNat = 0x2029 then
    [backslash, 'u', '2', '0', '2', hexDigit (c.toNat % 16)]
  else [c]

/-- JSON encoding of a Go `string`. -/
def jsonString (s : GoString) : GoString :=
  dquote :: (s.flatMap jsonEscapeChar ++ [dquote])

/-- The elements joined by commas, as between the items of a JSON array. -/
def commaSep : List GoString → GoString
  | [] => []
  | [e] => e
  | e :: rest => e ++ ',' :: commaSep rest

/-- Go `net.IP.MarshalText`; `none` is its error (a length other than 0, 4, 16). -/
def IP.MarshalText (ip : IP) : Option GoString :=
  if ip.length = 0 then some []
  else if ip.length ≠ 4 ∧ ip.length ≠ 16 then none
  else some (IP.String ip)

/-- JSON encoding of a `[]net.IP`: `null` for the nil slice, otherwise an array of the
addresses' texts as JSON strings. -/
def jsonIPs : Option (List IP) → Option GoString
  | none => some "null".toList
  | some ips =>
    (ips.mapM IP.MarshalText).map (fun ts => '[' :: (commaSep (ts.map jsonString) ++ [']']))

/-! ## `main.go` -/

/-- The text of the error `errors.New("Invalid IPv4 address")`. -/
def invalidIPv4 : GoString := "Invalid IPv4 address".toList

/-- `ReverseIPAddress` of `main.go`: the reversed dotted text and the error. -/
def ReverseIPAddress (ip : IP) : GoString × Option GoString :=
  if (IP.To4 ip).isSome then
    let addressSlice := Split (IP.String ip) '.'
    let reverseSlice := (List.range addressSlice.length).foldl
      (fun acc i => acc ++ [addressSlice.getD (addressSlice.length - 1 - i) []]) []
    (Join reverseSlice ['.'], none)
  else
    ([], some invalidIPv4)

/-- `Resp` of `main.go`: the JSON response for one RBL zone. -/
structure Resp where
  RblServer : GoString
  IsMatch : Bool
  IPs : Option (List IP)
deriving DecidableEq

/-- The zero value of `Resp`, as in the slice `make([]Resp, len(rblServers))`. -/
def Resp.zero : Resp := { RblServer := [], IsMatch := false, IPs := none }

/-- The default of `rblHost` in `main`. -/
def defaultRblHost : GoString :=
  "zen.spamhaus.org,bl.score.senderscore.com,b.barracudacentral.org,bl.spamcop.net".toList

/-- `rblHost` as `main` sets it from the environment variable `RBL_DNS_LOOKUP`. -/
def loadRblHost (env : GoString) : GoString :=
  if env = [] then defaultRblHost else env

/-- `fmt.Sprintf("%s.%s.", reverseIP, zone)`, the `query` of the handler's loop. -/
def queryName (reverseIP zone : GoString) : GoString :=
  reverseIP ++ '.' :: (zone ++ ['.'])

/-- State of the handler's loop over the zones: the slice `jsonResp` and the log of
the names looked up so far, which only `LookupIP` extends. -/
structure LoopState where
  jsonResp : List Resp
  lookups : List GoString
deriving DecidableEq

/-- One iteration (index `i`) of the handler's loop `for i := range rblServers`. -/
def zoneStep (resolver : Resolver) (reverseIP : GoString) (rblServers : List GoString)
    (st : LoopState) (i : Nat) : LoopState :=
  let query := queryName reverseIP (rblServers.getD i [])
  match LookupIP resolver st.lookups query with
  | ((ips, err), asked) =>
    let r := st.jsonResp.getD i Resp.zero
    let r := { r with RblServer := rblServers.getD i [] }
    let r := { r with IPs := ips }
    let r := if err ≠ none then { r with IsMatch := false } else { r with IsMatch := true }
    { jsonResp := st.jsonResp.set i r, lookups := asked }

/-- The zone fan-out of the handler (`main.go` lines 60 to 83): `jsonResp` is made with
one zero `Resp` per zone and the loop fills it index by index. -/
def queryZones (resolver : Resolver) (reverseIP : GoString) (rblServers : List GoString) :
    LoopState :=
  (List.range rblServers.length).foldl (zoneStep resolver reverseIP rblServers)
    { jsonResp := List.replicate rblServers.length Resp.zero, lookups := [] }

/-- The value a handler passes to `c.JSON`: `gin.H{"error": msg}` or the `[]Resp`. -/
inductive Payload where
  | errorH (msg : GoString)
  | results (jsonResp : List Resp)
deriving DecidableEq

/-- What one run of the `/query/:ip` handler does: the status and value given to
`c.JSON`, and the names it passed to `net.LookupIP`, in order. -/
structure Response where
  status : Nat
  payload : Payload
  lookups : List GoString
deriving DecidableEq

/-- The handler of `GET /query/:ip` in `main`; `param` is `c.Param("ip")`. -/
def queryHandler (strict : Bool) (rblHost : GoString) (resolver : Resolver)
    (param : GoString) : Response :=
  let ip := ParseIP strict param
  match ReverseIPAddress ip with
  | (reverseIP, err) =>
    match err with
    | some e => { status := 500, payload := Payload.errorH e, lookups := [] }
    | none =>
      let rblServers := Split rblHost ','
      let st := queryZones resolver reverseIP rblServers
      { status := 200, payload := Payload.results st.jsonResp, lookups := st.lookups }

/-- JSON encoding of one `Resp` (fields in declaration order). -/
def marshalResp (r : Resp) : Option GoString :=
  (jsonIPs r.IPs).map (fun ips =>
    '\x7b' :: (jsonString "RblServer".toList ++ ':' :: (jsonString r.RblServer ++ ',' ::
      (jsonString "IsMatch".toList ++ ':' :: ((if r.IsMatch then "true" else "false").toList
        ++ ',' :: (jsonString "IPs".toList ++ ':' :: (ips ++ ['\x7d'])))))))

/-- The body `c.JSON` writes for a payload (`json.Marshal`); `none` if marshalling
fails. -/
def jsonBody : Payload → Option GoString
  | Payload.errorH msg =>
    some ('\x7b' :: (jsonString "error".toList ++ ':' :: (jsonString msg ++ ['\x7d'])))
  | Payload.results rs =>
    (rs.mapM marshalResp).map (fun ts => '[' :: (commaSep ts ++ [']']))

/-! ## Notions used in the statements -/

/-- The number a text of decimal digits denotes. -/
def decVal (f : GoString) : Nat := f.foldl (fun n c => n * 10 + (c.toNat - 48)) 0

/-- The text is a well-formed decimal octet: digits only, at least one, value at most
255. -/
def isOctetText (f : GoString) : Bool :=
  f.all isDigit && !f.isEmpty && decide (decVal f ≤ 255)

/-- Under `strict`, the text is not written with a leading zero: it has at most one
byte or does not start with `0`.  Without `strict` nothing is asked. -/
def noLeadingZero (strict : Bool) (f : GoString) : Bool :=
  !strict || decide (f.length ≤ 1) || decide (f.head? ≠ some '0')

/-- The text is an IPv4 address in dotted-decimal form as `parseIPv4` reads it: four
fields between three dots, each a well-formed decimal octet and, under `strict`, none
written with a leading zero. -/
def isIPv4Text (strict : Bool) (s : GoString) : Bool :=
  match Split s '.' with
  | [f1, f2, f3, f4] =>
    [f1, f2, f3, f4].all (fun f => isOctetText f && noLeadingZero strict f)
  | _ => false

/-- The text is empty or starts with a byte that is not a decimal digit. -/
def noDigitAhead (r : GoString) : Bool :=
  match r with
  | [] => true
  | c :: _ => !isDigit c

/-- The result for a zone, read off the resolver's answer to the `k`-th lookup of the
request when that lookup is for the zone's query name: on an error the zone with
`IsMatch = false` and the nil slice, otherwise the zone with `IsMatch = true` and the
addresses of the answer. -/
def zoneResp (resolver : Resolver) (reverseIP zone : GoString) (k : Nat) : Resp :=
  match resolver k (queryName reverseIP zone) with
  | .error _ => { RblServer := zone, IsMatch := false, IPs := none }
  | .ok addrs => { RblServer := zone, IsMatch := true, IPs := some addrs }

/-- Some field between the dots of the text holds a byte that is not a decimal
digit. -/
def hasNonNumericOctet (s : GoString) : Bool :=
  (Split s '.').any (fun f => f.any (fun c => !isDigit c))

/-- Some field between the dots of the text is a decimal number above 255. -/
def hasOutOfRangeOctet (s : GoString) : Bool :=
  (Split s '.').any (fun f => f.all isDigit && !f.isEmpty && decide (255 < decVal f))

/-- The address is a 16-byte IPv4-mapped one, `::ffff:a.b.c.d`. -/
def isV4Mapped (ip : IP) : Bool := decide (ip.length = 16 ∧ v4InV6Prefix <+: ip)

/-! ## Lemmas on the library functions -/

theorem Index_of_not_mem (f : GoString) (sep : Char) (h : sep ∉ f) : Index f sep = none := by
  induction f with
  | nil => rfl
  | cons c cs ih =>
    have hc : c ≠ sep := fun e => h (e ▸ List.mem_cons_self _ _)
    have hcs : sep ∉ cs := fun m => h (List.mem_cons_of_mem _ m)
    simp [Index, hc, ih hcs]

theorem Index_append_sep (f rest : GoString) (sep : Char) (h : sep ∉ f) :
    Index (f ++ sep :: rest) sep = some f.length := by
  induction f with
  | nil => simp [Index]
  | cons c cs ih =>
    have hc : c ≠ sep := fun e => h (e ▸ List.mem_cons_self _ _)
    have hcs : sep ∉ cs := fun m => h (List.mem_cons_of_mem _ m)
    simp [Index, hc, ih hcs]

theorem Count_of_not_mem (f : GoString) (sep : Char) (h : sep ∉ f) : Count f sep = 0 := by
  induction f with
  | nil => rfl
  | cons c cs ih =>
    have hc : c ≠ sep := fun e => h (e ▸ List.mem_cons_self _ _)
    have hcs : sep ∉ cs := fun m => h (List.mem_cons_of_mem _ m)
    simp [Count, hc, ih hcs]

theorem Count_append_sep (f rest : GoString) (sep : Char) (h : sep ∉ f) :
    Count (f ++ sep :: rest) sep = Count rest sep + 1 := by
  induction f with
  | nil => simp [Count]; omega
  | cons c cs ih =>
    have hc : c ≠ sep := fun e => h (e ▸ List.mem_cons_self _ _)
    have hcs : sep ∉ cs := fun m => h (List.mem_cons_of_mem _ m)
    simp [Count, hc, ih hcs]

/-- A text without the separator is its own single field. -/
theorem Split_of_not_mem (f : GoString) (sep : Char) (h : sep ∉ f) : Split f sep = [f] := by
  simp [Split, Count_of_not_mem f sep h, genSplit]

/-- `Split` cuts at the first separator and goes on with the rest. -/
theorem Split_append_sep (f rest : GoString) (sep : Char) (h : sep ∉ f) :
    Split (f ++ sep :: rest) sep = f :: Split rest sep := by
  simp [Split, Count_append_sep f rest sep h, genSplit, Index_append_sep f rest sep h]

/-- The loop of `ReverseIPAddress` (append `addressSlice[len-1-i]` for `i` in range)
builds the reversed slice. -/
theorem reverseLoop_eq (xs : List GoString) :
    (List.range xs.length).foldl
      (fun acc i => acc ++ [xs.getD (xs.length - 1 - i) []]) [] = xs.reverse := by
  have key : ∀ k, k ≤ xs.length →
      (List.range k).foldl (fun acc i => acc ++ [xs.getD (xs.length - 1 - i) []]) []
        = (xs.drop (xs.length - k)).reverse := by
    intro k
    induction k with
    | zero => intro _; simp
    | succ k ih =>
      intro hk
      rw [List.range_succ, List.foldl_append, ih (by omega)]
      have hlt : xs.length - (k + 1) < xs.length := by omega
      have e1 : xs.length - 1 - k = xs.length - (k + 1) := by omega
      have e2 : xs.length - k = xs.length - (k + 1) + 1 := by omega
      rw [e2, List.drop_eq_getElem_cons hlt, List.reverse_cons]
      simp only [List.foldl_cons, List.foldl_nil]
      rw [e1, List.getD_eq_getElem?_getD, List.getElem?_eq_getElem hlt, Option.getD_some]
  have := key xs.length (le_refl _)
  simpa using this

set_option maxRecDepth 100000 in
/-- What `ubtoa` writes for a byte: a well-formed decimal octet denoting the byte, with
no leading zero when it has more than one digit. -/
theorem ubtoa_facts : ∀ v, v < 256 →
    isOctetText (ubtoa v) = true ∧ decVal (ubtoa v) = v ∧ (ubtoa v).length ≤ 3
      ∧ ((ubtoa v).length > 1 → (ubtoa v).head? ≠ some '0') := by
  decide

theorem decStep_le (cs : GoString) (n : Nat) :
    n ≤ cs.foldl (fun n c => n * 10 + (c.toNat - 48)) n := by
  induction cs generalizing n with
  | nil => simp
  | cons c cs ih =>
    simp only [List.foldl_cons]
    exact le_trans (by omega) (ih _)

/-- `dtoi` on a run of digits followed by no digit: it reads the whole run. -/
theorem dtoiLoop_digits (ds rest : GoString) (n i : Nat)
    (hd : ∀ c ∈ ds, isDigit c = true) (hr : noDigitAhead rest = true)
    (hbig : ds.foldl (fun n c => n * 10 + (c.toNat - 48)) n < big)
    (hpos : 0 < i + ds.length) :
    dtoiLoop (ds ++ rest) n i
      = (ds.foldl (fun n c => n * 10 + (c.toNat - 48)) n, i + ds.length, true) := by
  induction ds generalizing n i with
  | nil =>
    have hi : i ≠ 0 := by simpa using Nat.pos_iff_ne_zero.mp hpos
    cases rest with
    | nil => simp [dtoiLoop, hi]
    | cons h t =>
      have hh : isDigit h = false := by simpa [noDigitAhead] using hr
      simp [dtoiLoop, hi, hh]
  | cons c cs ih =>
    have hc : isDigit c = true := hd c (List.mem_cons_self _ _)
    have hcs : ∀ x ∈ cs, isDigit x = true := fun x hx => hd x (List.mem_cons_of_mem _ hx)
    simp only [List.foldl_cons] at hbig
    have hlt : ¬ (n * 10 + (c.toNat - 48) ≥ big) := by
      have := decStep_le cs (n * 10 + (c.toNat - 48))
      omega
    simp only [List.cons_append, dtoiLoop, hc, if_true, hlt, if_false, List.foldl_cons,
      List.append_eq]
    rw [ih _ (i + 1) hcs hbig (by omega)]
    simp only [List.length_cons]
    congr 2
    omega

/-- A success of `dtoi` means: the text starts with a non-empty run of digits, which
is what was read, and no digit follows the run. -/
theorem dtoiLoop_sound (s : GoString) (n i m c : Nat)
    (h : dtoiLoop s n i = (m, c, true)) :
    ∃ ds rest, s = ds ++ rest ∧ (∀ x ∈ ds, isDigit x = true) ∧ noDigitAhead rest = true
      ∧ m = ds.foldl (fun n c => n * 10 + (c.toNat - 48)) n ∧ c = i + ds.length ∧ 0 < c := by
  induction s generalizing n i with
  | nil =>
    by_cases hi : i = 0
    · simp [dtoiLoop, hi] at h
    · simp only [dtoiLoop, hi, if_false, Prod.mk.injEq, and_true] at h
      exact ⟨[], [], rfl, by simp, rfl, by simp [h.1], by simp [h.2], by omega⟩
  | cons x xs ih =>
    by_cases hx : isDigit x = true
    · by_cases hb : n * 10 + (x.toNat - 48) ≥ big
      · simp [dtoiLoop, hx, hb] at h
      · simp only [dtoiLoop, hx, if_true, hb, if_false] at h
        obtain ⟨ds, rest, e, hd, hr, hm, hc, hpos⟩ := ih _ _ h
        refine ⟨x :: ds, rest, by simp [e], ?_, hr, by simpa using hm, ?_, hpos⟩
        · intro y hy
          rcases List.mem_cons.mp hy with rfl | hy
          · exact hx
          · exact hd y hy
        · simp only [List.length_cons]; omega
    · have hx' : isDigit x = false := by simpa using hx
      by_cases hi : i = 0
      · simp [dtoiLoop, hx', hi] at h
      · simp only [dtoiLoop, hx', Bool.false_eq_true, if_false, hi, Prod.mk.injEq,
          and_true] at h
        exact ⟨[], x :: xs, rfl, by simp, by simp [noDigitAhead, hx'], by simp [h.1],
          by simp [h.2], by omega⟩

theorem isOctetText_iff (f : GoString) :
    isOctetText f = true ↔ (∀ c ∈ f, isDigit c = true) ∧ f ≠ [] ∧ decVal f ≤ 255 := by
  simp [isOctetText, List.all_eq_true, and_assoc]

theorem dtoi_octet (f r : GoString) (hf : isOctetText f = true)
    (hr : noDigitAhead r = true) : dtoi (f ++ r) = (decVal f, f.length, true) := by
  obtain ⟨hd, hne, hv⟩ := (isOctetText_iff f).mp hf
  have hlen : 0 < f.length := List.length_pos.mpr hne
  have := dtoiLoop_digits f r 0 0 hd hr (by unfold decVal at hv; unfold big; omega)
    (by omega)
  simpa [dtoi, decVal] using this

/-- One iteration of the loop of `parseIPv4` on a well-formed octet text `f` (after a
dot unless it is the first) followed by `r`: the octet is stored and the loop goes on
with `r`. -/
theorem parseIPv4Loop_step (strict : Bool) (k i : Nat) (f r : GoString) (p : IP)
    (hf : isOctetText f = true) (hz : f.length > 1 → f.head? ≠ some '0')
    (hr : noDigitAhead r = true) :
    parseIPv4Loop strict (k + 1) i (if i > 0 then '.' :: (f ++ r) else f ++ r) p
      = parseIPv4Loop strict k (i + 1) r (p.set i (decVal f)) := by
  obtain ⟨hd, hne, hv⟩ := (isOctetText_iff f).mp hf
  have hdt := dtoi_octet f r hf hr
  have hhead : (f ++ r).head? = f.head? := by
    cases f with
    | nil => exact absurd rfl hne
    | cons a t => rfl
  have hv' : ¬ (decVal f > 255) := by omega
  have hlen : f.length + r.length ≠ 0 := by
    have := List.length_pos.mpr hne
    omega
  by_cases hi : i > 0
  · have hi0 : i ≠ 0 := by omega
    simp [parseIPv4Loop, hi, hi0, hdt, hhead, hv']
    intro _ h1 h2
    exact absurd h2 (hz h1)
  · have hi0 : i = 0 := by omega
    subst hi0
    simp [parseIPv4Loop, hdt, hhead, hv', hlen]
    intro _ h1 h2
    exact absurd h2 (hz h1)

/-- `parseIPv4` reads back the dotted-decimal text of four bytes. -/
theorem parseIPv4_dotted (strict : Bool) (a b c d : Nat)
    (ha : a < 256) (hb : b < 256) (hc : c < 256) (hd : d < 256) :
    parseIPv4 strict (dotted a b c d) = IPv4 a b c d := by
  obtain ⟨fa, va, -, za⟩ := ubtoa_facts a ha
  obtain ⟨fb, vb, -, zb⟩ := ubtoa_facts b hb
  obtain ⟨fc, vc, -, zc⟩ := ubtoa_facts c hc
  obtain ⟨fd, vd, -, zd⟩ := ubtoa_facts d hd
  have dot : ∀ t : GoString, noDigitAhead ('.' :: t) = true := fun t => by
    simp [noDigitAhead, isDigit]
  have s0 := parseIPv4Loop_step strict 3 0 (ubtoa a)
    ('.' :: (ubtoa b ++ '.' :: (ubtoa c ++ '.' :: ubtoa d))) [0, 0, 0, 0] fa za (dot _)
  have s1 := parseIPv4Loop_step strict 2 1 (ubtoa b) ('.' :: (ubtoa c ++ '.' :: ubtoa d))
    ([0, 0, 0, 0].set 0 (decVal (ubtoa a))) fb zb (dot _)
  have s2 := parseIPv4Loop_step strict 1 2 (ubtoa c) ('.' :: ubtoa d)
    (([0, 0, 0, 0].set 0 (decVal (ubtoa a))).set 1 (decVal (ubtoa b))) fc zc (dot _)
  have s3 := parseIPv4Loop_step strict 0 3 (ubtoa d) []
    ((([0, 0, 0, 0].set 0 (decVal (ubtoa a))).set 1 (decVal (ubtoa b))).set 2
      (decVal (ubtoa c))) fd zd rfl
  simp only [gt_iff_lt, lt_self_iff_false, if_false, Nat.lt_one_iff, Nat.zero_lt_succ,
    if_true, List.append_nil, Nat.reduceAdd, Nat.ofNat_pos] at s0 s1 s2 s3
  unfold parseIPv4 dotted
  rw [s0, s1, s2, s3, va, vb, vc, vd]
  simp [parseIPv4Loop]

theorem isDigit_ne_dot (c : Char) (h : isDigit c = true) : c ≠ '.' := by
  rintro rfl
  exact absurd h (by decide)

theorem isDigit_ne_colon (c : Char) (h : isDigit c = true) : c ≠ ':' := by
  rintro rfl
  exact absurd h (by decide)

/-- The scan of `ParseIP` over digits and then a dot hands the text to `parseIPv4`. -/
theorem ParseIPScan_digits_dot (strict : Bool) (s ds rest : GoString)
    (hd : ∀ c ∈ ds, isDigit c = true) :
    ParseIPScan strict s (ds ++ '.' :: rest) = parseIPv4 strict s := by
  induction ds with
  | nil => simp [ParseIPScan]
  | cons c cs ih =>
    have h1 := isDigit_ne_dot c (hd c (List.mem_cons_self _ _))
    have h2 := isDigit_ne_colon c (hd c (List.mem_cons_self _ _))
    simp only [List.cons_append, ParseIPScan, h1, h2, if_false]
    exact ih (fun x hx => hd x (List.mem_cons_of_mem _ hx))

/-- `ParseIP` reads back the dotted-decimal text of four bytes, as the 16-byte form. -/
theorem ParseIP_dotted (strict : Bool) (a b c d : Nat)
    (ha : a < 256) (hb : b < 256) (hc : c < 256) (hd : d < 256) :
    ParseIP strict (dotted a b c d) = IPv4 a b c d := by
  have hda := ((isOctetText_iff _).mp (ubtoa_facts a ha).1).1
  rw [ParseIP]
  conv => lhs; arg 3; rw [dotted]
  rw [ParseIPScan_digits_dot strict _ _ _ hda, parseIPv4_dotted strict a b c d ha hb hc hd]

theorem dot_not_mem_ubtoa (v : Nat) (hv : v < 256) : '.' ∉ ubtoa v := fun hm =>
  isDigit_ne_dot '.' (((isOctetText_iff _).mp (ubtoa_facts v hv).1).1 _ hm) rfl

/-- Splitting a dotted-decimal text at the dots gives back its four octet texts. -/
theorem Split_dotted (a b c d : Nat)
    (ha : a < 256) (hb : b < 256) (hc : c < 256) (hd : d < 256) :
    Split (dotted a b c d) '.' = [ubtoa a, ubtoa b, ubtoa c, ubtoa d] := by
  unfold dotted
  rw [Split_append_sep _ _ _ (dot_not_mem_ubtoa a ha),
    Split_append_sep _ _ _ (dot_not_mem_ubtoa b hb),
    Split_append_sep _ _ _ (dot_not_mem_ubtoa c hc),
    Split_of_not_mem _ _ (dot_not_mem_ubtoa d hd)]

/-- For an address that `To4` sees as `a.b.c.d`, `String` is the dotted text. -/
theorem String_of_To4 (ip : IP) (a b c d : Nat) (h : IP.To4 ip = some [a, b, c, d]) :
    IP.String ip = dotted a b c d := by
  have hlen : ip.length ≠ 0 := by
    intro h0
    simp [IP.To4, h0] at h
  simp [IP.String, hlen, h]

/-- The body of `ReverseIPAddress` on an address that `To4` sees as `a.b.c.d`. -/
theorem ReverseIPAddress_of_To4 (ip : IP) (a b c d : Nat)
    (ha : a < 256) (hb : b < 256) (hc : c < 256) (hd : d < 256)
    (h : IP.To4 ip = some [a, b, c, d]) :
    ReverseIPAddress ip = (dotted d c b a, none) := by
  unfold ReverseIPAddress
  simp only [h, Option.isSome_some, if_true]
  rw [reverseLoop_eq, String_of_To4 ip a b c d h, Split_dotted a b c d ha hb hc hd]
  simp [Join, dotted]

theorem To4_IPv4 (a b c d : Nat) : IP.To4 (IPv4 a b c d) = some [a, b, c, d] := by
  simp [IP.To4, IPv4, v4InV6Prefix, isZeros]

theorem To4_four (a b c d : Nat) : IP.To4 [a, b, c, d] = some [a, b, c, d] := by
  simp [IP.To4]

theorem length_eq_four (l : List Nat) (h : l.length = 4) :
    ∃ a b c d, l = [a, b, c, d] := by
  rcases l with _ | ⟨a, _ | ⟨b, _ | ⟨c, _ | ⟨d, _ | ⟨e, l⟩⟩⟩⟩⟩
  · simp at h
  · simp at h
  · simp at h
  · simp at h
  · exact ⟨a, b, c, d, rfl⟩
  · simp at h

theorem length_eq_sixteen (l : List Nat) (h : l.length = 16) :
    ∃ x0 x1 x2 x3 x4 x5 x6 x7 x8 x9 x10 x11 x12 x13 x14 x15,
      l = [x0, x1, x2, x3, x4, x5, x6, x7, x8, x9, x10, x11, x12, x13, x14, x15] := by
  rcases l with _ | ⟨x0, l⟩
  · simp at h
  rcases l with _ | ⟨x1, l⟩
  · simp at h
  rcases l with _ | ⟨x2, l⟩
  · simp at h
  rcases l with _ | ⟨x3, l⟩
  · simp at h
  rcases l with _ | ⟨x4, l⟩
  · simp at h
  rcases l with _ | ⟨x5, l⟩
  · simp at h
  rcases l with _ | ⟨x6, l⟩
  · simp at h
  rcases l with _ | ⟨x7, l⟩
  · simp at h
  rcases l with _ | ⟨x8, l⟩
  · simp at h
  rcases l with _ | ⟨x9, l⟩
  · simp at h
  rcases l with _ | ⟨x10, l⟩
  · simp at h
  rcases l with _ | ⟨x11, l⟩
  · simp at h
  rcases l with _ | ⟨x12, l⟩
  · simp at h
  rcases l with _ | ⟨x13, l⟩
  · simp at h
  rcases l with _ | ⟨x14, l⟩
  · simp at h
  rcases l with _ | ⟨x15, l⟩
  · simp at h
  rcases l with _ | ⟨y, l⟩
  · exact ⟨x0, x1, x2, x3, x4, x5, x6, x7, x8, x9, x10, x11, x12, x13, x14, x15, rfl⟩
  · simp only [List.length_cons] at h
    omega

/-- The two shapes `To4` accepts: four bytes, or the 16-byte IPv4-mapped form. -/
theorem To4_cases (ip : IP) :
    (IP.To4 ip = none ∧ ¬ (ip.length = 4 ∨ (ip.length = 16 ∧ v4InV6Prefix <+: ip)))
    ∨ (∃ a b c d, IP.To4 ip = some [a, b, c, d] ∧ (ip = [a, b, c, d] ∨ ip = IPv4 a b c d)
        ∧ (ip.length = 4 ∨ (ip.length = 16 ∧ v4InV6Prefix <+: ip))) := by
  by_cases h4 : ip.length = 4
  · obtain ⟨a, b, c, d, rfl⟩ := length_eq_four ip h4
    exact Or.inr ⟨a, b, c, d, To4_four a b c d, Or.inl rfl, Or.inl rfl⟩
  · by_cases h16 : ip.length = 16
    · obtain ⟨x0, x1, x2, x3, x4, x5, x6, x7, x8, x9, x10, x11, x12, x13, x14, x15, rfl⟩ :=
        length_eq_sixteen ip h16
      by_cases hp : v4InV6Prefix <+: [x0, x1, x2, x3, x4, x5, x6, x7, x8, x9, x10, x11, x12,
          x13, x14, x15]
      · right
        refine ⟨x12, x13, x14, x15, ?_, Or.inr ?_, Or.inr ⟨rfl, hp⟩⟩
        · simp [v4InV6Prefix] at hp
          obtain ⟨rfl, rfl, rfl, rfl, rfl, rfl, rfl, rfl, rfl, rfl, rfl, rfl⟩ := hp
          simp [IP.To4, isZeros]
        · simp [v4InV6Prefix] at hp
          obtain ⟨rfl, rfl, rfl, rfl, rfl, rfl, rfl, rfl, rfl, rfl, rfl, rfl⟩ := hp
          simp [IPv4, v4InV6Prefix]
      · left
        refine ⟨?_, fun h => h.elim (fun h => by simp at h) (fun h => hp h.2)⟩
        simp only [v4InV6Prefix, List.cons_prefix_cons, List.nil_prefix, and_true] at hp
        simp only [IP.To4, List.length_cons, List.length_nil, isZeros]
        simp
        intro h0 h1 h2 h3 h4 h5 h6 h7 h8 h9 h10 h11
        exact hp ⟨h0.symm, h1.symm, h2.symm, h3.symm, h4.symm, h5.symm, h6.symm, h7.symm,
          h8.symm, h9.symm, h10.symm, h11.symm⟩
    · left
      refine ⟨by simp [IP.To4, h4, h16], fun h => h.elim h4 (fun h => h16 h.1)⟩

/-- One iteration of the loop of `parseIPv4` that does not fail has read a well-formed
octet text `f` (after a dot unless it is the first), stored its value and gone on with
what follows it. -/
theorem parseIPv4Loop_sound (strict : Bool) (k i : Nat) (s : GoString) (p : IP)
    (out : GoString × IP) (h : parseIPv4Loop strict (k + 1) i s p = some out) :
    ∃ f r, isOctetText f = true ∧ noDigitAhead r = true
      ∧ s = (if i > 0 then '.' :: (f ++ r) else f ++ r)
      ∧ parseIPv4Loop strict k (i + 1) r (p.set i (decVal f)) = some out
      ∧ noLeadingZero strict f = true := by
  have key : ∀ t : GoString,
      (match dtoi t with
        | (n, c, ok) =>
          if (!ok || decide (n > 0xFF)) = true then none
          else if (strict && decide (c > 1) && decide (t.head? = some '0')) = true then none
          else parseIPv4Loop strict k (i + 1) (t.drop c) (p.set i n)) = some out →
      ∃ f r, isOctetText f = true ∧ noDigitAhead r = true ∧ t = f ++ r
        ∧ parseIPv4Loop strict k (i + 1) r (p.set i (decVal f)) = some out
        ∧ noLeadingZero strict f = true := by
    intro t ht
    rcases hdt : dtoi t with ⟨n, c, ok⟩
    rw [hdt] at ht
    simp only at ht
    cases ok with
    | false => simp at ht
    | true =>
      by_cases hn : n > 0xFF
      · simp [hn] at ht
      · obtain ⟨ds, rest, e, hd, hr, hm, hc, hpos⟩ := dtoiLoop_sound t 0 0 n c hdt
        have hne : ds ≠ [] := by
          intro h0
          subst h0
          simp at hc
          omega
        have hval : decVal ds = n := by simp [decVal, hm]
        have hdrop : t.drop c = rest := by
          subst e
          simp [hc]
        have hhead : t.head? = ds.head? := by
          subst e
          cases ds with
          | nil => exact absurd rfl hne
          | cons x xs => rfl
        have hc1 : ¬ ((!true || decide (n > 0xFF)) = true) := by simpa using hn
        rw [if_neg hc1] at ht
        by_cases hz : (strict && decide (c > 1) && decide (t.head? = some '0')) = true
        · rw [if_pos hz] at ht
          exact absurd ht (by simp)
        · rw [if_neg hz, hdrop, ← hval] at ht
          refine ⟨ds, rest, (isOctetText_iff ds).mpr ⟨hd, hne, by omega⟩, hr, e, ht, ?_⟩
          have hcl : c = ds.length := by omega
          rw [hcl, hhead] at hz
          cases strict with
          | false => rfl
          | true =>
            simp only [noLeadingZero, Bool.not_true, Bool.false_or, Bool.or_eq_true,
              decide_eq_true_eq]
            simp only [Bool.true_and, Bool.and_eq_true, decide_eq_true_eq, not_and] at hz
            by_cases hl : ds.length ≤ 1
            · exact Or.inl hl
            · exact Or.inr (hz (by omega))
  unfold parseIPv4Loop at h
  by_cases hs : s.length = 0
  · simp [hs] at h
  · simp only [hs, if_false] at h
    by_cases hi : i > 0
    · simp only [hi, if_true] at h
      cases s with
      | nil => simp at hs
      | cons x t =>
        by_cases hx : x = '.'
        · subst hx
          simp only [List.head?_cons, ne_eq, not_true_eq_false, if_false, List.drop_succ_cons,
            List.drop_zero] at h
          obtain ⟨f, r, h1, h2, h3, h4, h5⟩ := key t h
          exact ⟨f, r, h1, h2, by simp [hi, h3], h4, h5⟩
        · have : ¬ (some x = some '.') := by simpa using hx
          simp [this] at h
    · simp only [hi, if_false] at h
      obtain ⟨f, r, h1, h2, h3, h4, h5⟩ := key s h
      exact ⟨f, r, h1, h2, by simp [hi, h3], h4, h5⟩

/-- When `parseIPv4` accepts a text, the text is four well-formed octet texts joined by
dots (under `strict` none with a leading zero), and the result is the address of their
values. -/
theorem parseIPv4_sound (strict : Bool) (s : GoString) (h : parseIPv4 strict s ≠ []) :
    ∃ f1 f2 f3 f4, isOctetText f1 = true ∧ isOctetText f2 = true ∧ isOctetText f3 = true
      ∧ isOctetText f4 = true ∧ s = f1 ++ '.' :: (f2 ++ '.' :: (f3 ++ '.' :: f4))
      ∧ parseIPv4 strict s = IPv4 (decVal f1) (decVal f2) (decVal f3) (decVal f4)
      ∧ noLeadingZero strict f1 = true ∧ noLeadingZero strict f2 = true
      ∧ noLeadingZero strict f3 = true ∧ noLeadingZero strict f4 = true := by
  unfold parseIPv4 at h ⊢
  rcases hl : parseIPv4Loop strict 4 0 s [0, 0, 0, 0] with _ | ⟨rest, p⟩
  · simp [hl] at h
  · obtain ⟨f1, r1, o1, -, e1, l1, z1⟩ := parseIPv4Loop_sound strict 3 0 s _ _ hl
    obtain ⟨f2, r2, o2, -, e2, l2, z2⟩ := parseIPv4Loop_sound strict 2 1 r1 _ _ l1
    obtain ⟨f3, r3, o3, -, e3, l3, z3⟩ := parseIPv4Loop_sound strict 1 2 r2 _ _ l2
    obtain ⟨f4, r4, o4, -, e4, l4, z4⟩ := parseIPv4Loop_sound strict 0 3 r3 _ _ l3
    simp only [parseIPv4Loop, Option.some.injEq, Prod.mk.injEq] at l4
    obtain ⟨hr, hp⟩ := l4
    simp only [gt_iff_lt, lt_self_iff_false, if_false, Nat.lt_one_iff, Nat.zero_lt_succ,
      if_true, Nat.ofNat_pos] at e1 e2 e3 e4
    by_cases hrest : rest.length ≠ 0
    · simp [hl, hrest] at h
    · have hrest' : rest = [] := by
        have : rest.length = 0 := by omega
        exact List.length_eq_zero.mp this
      refine ⟨f1, f2, f3, f4, o1, o2, o3, o4, ?_, ?_, z1, z2, z3, z4⟩
      · rw [e1, e2, e3, e4, hr, hrest', List.append_nil]
      · simp only [hrest, if_false]
        rw [← hp]
        simp

theorem parseIPv4_length (strict : Bool) (s : GoString) :
    (parseIPv4 strict s).length = 0 ∨ (parseIPv4 strict s).length = 16 := by
  unfold parseIPv4
  split
  · split
    · exact Or.inl rfl
    · exact Or.inr rfl
  · exact Or.inl rfl

theorem parseIPv6Loop_length (strict : Bool) (fuel : Nat) (st st' : V6State)
    (h : parseIPv6Loop strict fuel st = some st') : st'.ip.length = st.ip.length := by
  induction fuel generalizing st with
  | zero =>
    simp only [parseIPv6Loop, Option.some.injEq] at h
    rw [← h]
  | succ fuel ih =>
    unfold parseIPv6Loop at h
    rcases hx : xtoi st.s with ⟨n, c, ok⟩
    rw [hx] at h
    simp only at h
    repeat' split at h
    all_goals first
      | (exact absurd h (Option.noConfusion))
      | (simp only [Option.some.injEq] at h; rw [← h]; try simp only [List.length_set])
      | (have hrec := ih _ h; simpa only [List.length_set] using hrec)

theorem foldl_set_length (js : List Nat) (g : Nat → Nat) (v : IP → Nat → Nat) (ip : IP) :
    (js.foldl (fun ip j => ip.set (g j) (v ip j)) ip).length = ip.length := by
  induction js generalizing ip with
  | nil => rfl
  | cons j js ih => simp only [List.foldl_cons, ih, List.length_set]

theorem expandEllipsis_length (ip : IP) (i ellipsis : Nat) :
    (expandEllipsis ip i ellipsis).length = ip.length := by
  unfold expandEllipsis
  simp only
  rw [foldl_set_length _ (fun j => j) (fun _ _ => 0),
    foldl_set_length _ (fun j => j + (16 - i)) (fun ip j => ip.getD j 0)]

theorem parseIPv6_length (strict : Bool) (s : GoString) :
    (parseIPv6 strict s).length = 0 ∨ (parseIPv6 strict s).length = 16 := by
  have tail : ∀ st0 : V6State, st0.ip.length = 16 →
      (match parseIPv6Loop strict 8 st0 with
        | none => ([] : IP)
        | some st =>
          if st.s.length ≠ 0 then []
          else if st.i < 16 then
            if st.ellipsis < 0 then []
            else expandEllipsis st.ip st.i st.ellipsis.toNat
          else if st.ellipsis ≥ 0 then []
          else st.ip).length = 0 ∨
      (match parseIPv6Loop strict 8 st0 with
        | none => ([] : IP)
        | some st =>
          if st.s.length ≠ 0 then []
          else if st.i < 16 then
            if st.ellipsis < 0 then []
            else expandEllipsis st.ip st.i st.ellipsis.toNat
          else if st.ellipsis ≥ 0 then []
          else st.ip).length = 16 := by
    intro st0 h0
    rcases hst : parseIPv6Loop strict 8 st0 with _ | st
    · exact Or.inl rfl
    · have hlen := parseIPv6Loop_length strict 8 _ st hst
      rw [h0] at hlen
      simp only
      repeat' split
      all_goals first
        | exact Or.inl rfl
        | exact Or.inr hlen
        | exact Or.inr (by rw [expandEllipsis_length]; exact hlen)
  unfold parseIPv6
  simp only
  by_cases hl : (s.length ≥ 2 ∧ s.getD 0 ' ' = ':' ∧ s.getD 1 ' ' = ':')
  · simp only [hl, decide_True, if_true, true_and]
    by_cases h0 : (s.drop 2).length = 0
    · rw [if_pos (by simpa using h0)]
      exact Or.inr (by simp)
    · rw [if_neg (by simpa using h0)]
      exact tail _ (by simp)
  · simp only [hl, decide_False, Bool.false_eq_true, if_false, false_and]
    exact tail _ (by simp)

/-- The scan of `ParseIP` ends in nil, in `parseIPv4`, or, only when there is a colon,
in `parseIPv6`. -/
theorem ParseIPScan_cases (strict : Bool) (s t : GoString) :
    ParseIPScan strict s t = [] ∨ ParseIPScan strict s t = parseIPv4 strict s
      ∨ (':' ∈ t ∧ ParseIPScan strict s t = parseIPv6 strict s) := by
  induction t with
  | nil => exact Or.inl rfl
  | cons c cs ih =>
    unfold ParseIPScan
    by_cases h1 : c = '.'
    · simp [h1]
    · by_cases h2 : c = ':'
      · simp [h2]
      · simp only [h1, h2, if_false]
        rcases ih with h | h | ⟨hm, h⟩
        · exact Or.inl h
        · exact Or.inr (Or.inl h)
        · exact Or.inr (Or.inr ⟨List.mem_cons_of_mem _ hm, h⟩)

/-- `ParseIP` returns nil or a 16-byte address. -/
theorem ParseIP_length (strict : Bool) (s : GoString) :
    (ParseIP strict s).length = 0 ∨ (ParseIP strict s).length = 16 := by
  unfold ParseIP
  rcases ParseIPScan_cases strict s s with h | h | ⟨-, h⟩
  · exact Or.inl (by rw [h]; rfl)
  · rw [h]; exact parseIPv4_length strict s
  · rw [h]; exact parseIPv6_length strict s

/-- Without a colon, what `ParseIP` accepts is a text of four well-formed octet texts
joined by dots (under `strict` none with a leading zero). -/
theorem ParseIP_no_colon (strict : Bool) (s : GoString) (hc : ':' ∉ s)
    (h : ParseIP strict s ≠ []) :
    ∃ f1 f2 f3 f4, isOctetText f1 = true ∧ isOctetText f2 = true ∧ isOctetText f3 = true
      ∧ isOctetText f4 = true ∧ s = f1 ++ '.' :: (f2 ++ '.' :: (f3 ++ '.' :: f4))
      ∧ ParseIP strict s = IPv4 (decVal f1) (decVal f2) (decVal f3) (decVal f4)
      ∧ noLeadingZero strict f1 = true ∧ noLeadingZero strict f2 = true
      ∧ noLeadingZero strict f3 = true ∧ noLeadingZero strict f4 = true := by
  unfold ParseIP at h ⊢
  rcases ParseIPScan_cases strict s s with h0 | h0 | ⟨hm, -⟩
  · exact absurd h0 h
  · rw [h0] at h ⊢
    exact parseIPv4_sound strict s h
  · exact absurd hm hc

theorem dot_not_mem_octet (f : GoString) (hf : isOctetText f = true) : '.' ∉ f := fun hm =>
  isDigit_ne_dot '.' (((isOctetText_iff f).mp hf).1 _ hm) rfl

/-- Splitting four dot-joined octet texts at the dots gives them back. -/
theorem Split_octets (f1 f2 f3 f4 : GoString) (h1 : isOctetText f1 = true)
    (h2 : isOctetText f2 = true) (h3 : isOctetText f3 = true) (h4 : isOctetText f4 = true) :
    Split (f1 ++ '.' :: (f2 ++ '.' :: (f3 ++ '.' :: f4))) '.' = [f1, f2, f3, f4] := by
  rw [Split_append_sep _ _ _ (dot_not_mem_octet f1 h1),
    Split_append_sep _ _ _ (dot_not_mem_octet f2 h2),
    Split_append_sep _ _ _ (dot_not_mem_octet f3 h3),
    Split_of_not_mem _ _ (dot_not_mem_octet f4 h4)]

/-- The fuel of `parseIPv6Loop` is enough: once `16 ≤ i + 2 * fuel`, more fuel does not
change the result (the loop has ended by its own condition or by a `break`). -/
theorem parseIPv6Loop_fuel (strict : Bool) (fuel : Nat) (st : V6State)
    (h : 16 ≤ st.i + 2 * fuel) :
    parseIPv6Loop strict (fuel + 1) st = parseIPv6Loop strict fuel st := by
  induction fuel generalizing st with
  | zero =>
    have hi : ¬ st.i < 16 := by omega
    simp [parseIPv6Loop, hi]
  | succ n ih =>
    rw [parseIPv6Loop]
    conv_rhs => rw [parseIPv6Loop]
    rcases hx : xtoi st.s with ⟨m, c, ok⟩
    simp only
    have r1 := ih
      { ip := (st.ip.set st.i (m / 256)).set (st.i + 1) (m % 256)
        i := st.i + 2
        s := List.drop 1 (List.drop 1 (List.drop c st.s))
        ellipsis := ((st.i + 2 : Nat) : Int) }
      (by simp only; omega)
    have r2 := ih
      { ip := (st.ip.set st.i (m / 256)).set (st.i + 1) (m % 256)
        i := st.i + 2
        s := List.drop 1 (List.drop c st.s)
        ellipsis := st.ellipsis }
      (by simp only; omega)
    rw [r1, r2]

/-- With the 8 units of fuel `parseIPv6` gives it, the loop of `parseIPv6` started at
`i = 0` runs to its end: any larger fuel gives the same result. -/
theorem parseIPv6Loop_fuel_eight (strict : Bool) (extra : Nat) (st : V6State) (h : st.i = 0) :
    parseIPv6Loop strict (8 + extra) st = parseIPv6Loop strict 8 st := by
  induction extra with
  | zero => rfl
  | succ n ih =>
    rw [← ih]
    exact parseIPv6Loop_fuel strict (8 + n) st (by omega)

/-! ## Lemmas on the handler's loop -/

theorem zoneResp_RblServer (resolver : Resolver) (reverseIP zone : GoString) (k : Nat) :
    (zoneResp resolver reverseIP zone k).RblServer = zone := by
  unfold zoneResp
  cases resolver k (queryName reverseIP zone) <;> rfl

theorem zoneStep_eq (resolver : Resolver) (reverseIP : GoString) (rblServers : List GoString)
    (st : LoopState) (i : Nat) :
    zoneStep resolver reverseIP rblServers st i
      = { jsonResp := st.jsonResp.set i
            (zoneResp resolver reverseIP (rblServers.getD i []) st.lookups.length)
          lookups := st.lookups ++ [queryName reverseIP (rblServers.getD i [])] } := by
  unfold zoneStep zoneResp LookupIP
  rcases h : resolver st.lookups.length (queryName reverseIP (rblServers.getD i []))
    with e | addrs <;> simp only [h] <;> simp

/-- Invariant of the handler's loop after `k` iterations: `k` lookups were issued, for
the first `k` zones in order; `jsonResp` keeps its length; its first `k` entries are
filled and the others are still zero. -/
theorem queryZones_invariant (resolver : Resolver) (reverseIP : GoString)
    (rblServers : List GoString) (k : Nat) (hk : k ≤ rblServers.length) :
    ((List.range k).foldl (zoneStep resolver reverseIP rblServers)
        { jsonResp := List.replicate rblServers.length Resp.zero, lookups := [] }).lookups
      = (rblServers.take k).map (queryName reverseIP)
    ∧ ((List.range k).foldl (zoneStep resolver reverseIP rblServers)
        { jsonResp := List.replicate rblServers.length Resp.zero, lookups := [] }).jsonResp.length
      = rblServers.length
    ∧ ∀ j, j < rblServers.length →
      ((List.range k).foldl (zoneStep resolver reverseIP rblServers)
        { jsonResp := List.replicate rblServers.length Resp.zero,
          lookups := [] }).jsonResp[j]?
        = some (if j < k then zoneResp resolver reverseIP (rblServers.getD j []) j
            else Resp.zero) := by
  induction k with
  | zero =>
    refine ⟨by simp, by simp, ?_⟩
    intro j hj
    simp [List.getElem?_replicate, hj]
  | succ k ih =>
    obtain ⟨hl, hlen, hget⟩ := ih (by omega)
    rw [List.range_succ, List.foldl_append]
    simp only [List.foldl_cons, List.foldl_nil]
    rw [zoneStep_eq]
    have hklen : ((List.range k).foldl (zoneStep resolver reverseIP rblServers)
        { jsonResp := List.replicate rblServers.length Resp.zero,
          lookups := [] }).lookups.length = k := by
      rw [hl, List.length_map, List.length_take]
      omega
    have hkl : k < rblServers.length := by omega
    refine ⟨?_, ?_, ?_⟩
    · simp only [hl]
      rw [List.take_succ, List.map_append]
      simp [List.getElem?_eq_getElem hkl]
    · simp only [List.length_set, hlen]
    · intro j hj
      simp only [hklen]
      rw [List.getElem?_set]
      by_cases hjk : k = j
      · subst hjk
        simp [hlen, hkl]
      · simp only [hjk, if_false, hget j hj]
        have : (j < k + 1) ↔ (j < k) := by omega
        simp only [this]

/-- The handler's loop, in closed form: the lookups are the zones' query names in
order, and entry `j` of `jsonResp` is the result of zone `j`, whose lookup is the
`j`-th of the request. -/
theorem queryZones_spec (resolver : Resolver) (reverseIP : GoString)
    (rblServers : List GoString) :
    (queryZones resolver reverseIP rblServers).lookups
      = rblServers.map (queryName reverseIP)
    ∧ (queryZones resolver reverseIP rblServers).jsonResp.length = rblServers.length
    ∧ ∀ j, j < rblServers.length →
      (queryZones resolver reverseIP rblServers).jsonResp[j]?
        = some (zoneResp resolver reverseIP (rblServers.getD j []) j) := by
  obtain ⟨hl, hlen, hget⟩ :=
    queryZones_invariant resolver reverseIP rblServers rblServers.length (le_refl _)
  refine ⟨by simpa [queryZones] using hl, by simpa [queryZones] using hlen, ?_⟩
  intro j hj
  have := hget j hj
  simpa [queryZones, hj] using this

theorem ReverseIPAddress_of_To4_none (ip : IP) (h : IP.To4 ip = none) :
    ReverseIPAddress ip = ([], some invalidIPv4) := by
  simp [ReverseIPAddress, h]

/-- What `ParseIP` returns is not seen as IPv4 by `To4` unless it is IPv4-mapped. -/
theorem To4_ParseIP_none (strict : Bool) (s : GoString)
    (h : isV4Mapped (ParseIP strict s) = false) : IP.To4 (ParseIP strict s) = none := by
  rcases To4_cases (ParseIP strict s) with ⟨h0, -⟩ | ⟨a, b, c, d, -, -, h4 | h16⟩
  · exact h0
  · rcases ParseIP_length strict s with hl | hl <;> omega
  · simp [isV4Mapped, h16.1, h16.2] at h

/-- A text without colon that has a field which is not a well-formed octet is not
accepted by `ParseIP`. -/
theorem ParseIP_bad_octet (strict : Bool) (s : GoString) (hc : ':' ∉ s)
    (hbad : ∃ f ∈ Split s '.', isOctetText f = false) : ParseIP strict s = [] := by
  by_contra hne
  obtain ⟨f1, f2, f3, f4, o1, o2, o3, o4, e, -, -⟩ := ParseIP_no_colon strict s hc hne
  obtain ⟨f, hf, hbadf⟩ := hbad
  rw [e, Split_octets f1 f2 f3 f4 o1 o2 o3 o4] at hf
  simp only [List.mem_cons, List.mem_singleton, List.not_mem_nil, or_false] at hf
  rcases hf with rfl | rfl | rfl | rfl <;> simp_all

/-- A text that is not a dotted-decimal IPv4 text and, if it has a colon, does not parse
to an IPv4-mapped address, parses to nothing that `To4` sees as IPv4. -/
theorem To4_ParseIP_none_of_text (strict : Bool) (s : GoString)
    (h4 : isIPv4Text strict s = false)
    (h6 : ':' ∈ s → isV4Mapped (ParseIP strict s) = false) :
    IP.To4 (ParseIP strict s) = none := by
  by_cases hc : ':' ∈ s
  · exact To4_ParseIP_none strict s (h6 hc)
  · by_cases hp : ParseIP strict s = []
    · rw [hp]
      rfl
    · obtain ⟨f1, f2, f3, f4, o1, o2, o3, o4, e, -, z1, z2, z3, z4⟩ :=
        ParseIP_no_colon strict s hc hp
      have ht : isIPv4Text strict s = true := by
        rw [isIPv4Text, e, Split_octets f1 f2 f3 f4 o1 o2 o3 o4]
        simp [o1, o2, o3, o4, z1, z2, z3, z4]
      rw [ht] at h4
      exact absurd h4 (by simp)

/-! ## The claims -/

/-- C1. For octets `a b c d` (each 0..255): the dotted-decimal text `a.b.c.d` parses
(`net.ParseIP`) to an address on which `ReverseIPAddress` returns the text `d.c.b.a`,
the four decimal octets in reverse order joined by dots, with a nil error; and
so it does on every address value that `To4` reads as `a.b.c.d` (the 4-byte and the
16-byte form).  The labels are the decimal texts of the octets. -/
theorem C1_reverse_valid_ipv4 (strict : Bool) (a b c d : Nat)
    (ha : a < 256) (hb : b < 256) (hc : c < 256) (hd : d < 256) :
    ReverseIPAddress (ParseIP strict (dotted a b c d))
        = (ubtoa d ++ '.' :: (ubtoa c ++ '.' :: (ubtoa b ++ '.' :: ubtoa a)), none)
    ∧ (∀ ip, IP.To4 ip = some [a, b, c, d] →
        ReverseIPAddress ip
          = (ubtoa d ++ '.' :: (ubtoa c ++ '.' :: (ubtoa b ++ '.' :: ubtoa a)), none))
    ∧ [decVal (ubtoa d), decVal (ubtoa c), decVal (ubtoa b), decVal (ubtoa a)]
        = [d, c, b, a] := by
  refine ⟨?_, ?_, ?_⟩
  · rw [ParseIP_dotted strict a b c d ha hb hc hd]
    exact ReverseIPAddress_of_To4 _ a b c d ha hb hc hd (To4_IPv4 a b c d)
  · intro ip h
    exact ReverseIPAddress_of_To4 ip a b c d ha hb hc hd h
  · rw [(ubtoa_facts a ha).2.1, (ubtoa_facts b hb).2.1, (ubtoa_facts c hc).2.1,
      (ubtoa_facts d hd).2.1]

/-- Witness of C1 at the address 1.2.3.4: the text `1.2.3.4` reverses to `4.3.2.1`. -/
theorem C1_reverse_valid_ipv4_witness :
    ReverseIPAddress (ParseIP true "1.2.3.4".toList) = ("4.3.2.1".toList, none) :=
  (C1_reverse_valid_ipv4 true 1 2 3 4 (by decide) (by decide) (by decide) (by decide)).1

/-- C2, as stated, fails: the IPv6 literals `::ffff:102:304` and `::ffff:1.2.3.4` parse
to the IPv4-mapped address of 1.2.3.4, and `ReverseIPAddress` returns `4.3.2.1` with a
nil error instead of the error. -/
theorem C2_ipv6_literal_counterexample :
    ReverseIPAddress (ParseIP true "::ffff:102:304".toList) = ("4.3.2.1".toList, none)
    ∧ ReverseIPAddress (ParseIP false "::ffff:102:304".toList) = ("4.3.2.1".toList, none)
    ∧ ReverseIPAddress (ParseIP true "::ffff:1.2.3.4".toList) = ("4.3.2.1".toList, none)
    ∧ ReverseIPAddress (ParseIP false "::ffff:1.2.3.4".toList)
        = ("4.3.2.1".toList, none) := by
  decide

/-- C2, amended. A candidate text that is empty, or has no colon and a field with a
non-digit byte, or has no colon and a field that is a number above 255, or has a colon
(an IPv6 literal) and does not parse to an IPv4-mapped address `::ffff:a.b.c.d`:
parsing it with `net.ParseIP` and passing the result to `ReverseIPAddress` gives the
error "Invalid IPv4 address" and the empty text. -/
theorem C2_invalid_address_amended (strict : Bool) (s : GoString)
    (h : s = [] ∨ (':' ∉ s ∧ hasNonNumericOctet s = true)
      ∨ (':' ∉ s ∧ hasOutOfRangeOctet s = true)
      ∨ (':' ∈ s ∧ isV4Mapped (ParseIP strict s) = false)) :
    ReverseIPAddress (ParseIP strict s) = ([], some invalidIPv4) := by
  rcases h with rfl | ⟨hc, hn⟩ | ⟨hc, ho⟩ | ⟨-, hm⟩
  · rfl
  · have hnil : ParseIP strict s = [] := by
      apply ParseIP_bad_octet strict s hc
      simp only [hasNonNumericOctet, List.any_eq_true, Bool.not_eq_true'] at hn
      obtain ⟨f, hf, c, hcf, hcd⟩ := hn
      refine ⟨f, hf, ?_⟩
      by_contra ht
      have ht' : isOctetText f = true := by simpa using ht
      have := ((isOctetText_iff f).mp ht').1 c hcf
      simp [hcd] at this
    rw [hnil]
    rfl
  · have hnil : ParseIP strict s = [] := by
      apply ParseIP_bad_octet strict s hc
      simp only [hasOutOfRangeOctet, List.any_eq_true, Bool.and_eq_true,
        decide_eq_true_eq] at ho
      obtain ⟨f, hf, -, hv⟩ := ho
      refine ⟨f, hf, ?_⟩
      by_contra ht
      have ht' : isOctetText f = true := by simpa using ht
      have := ((isOctetText_iff f).mp ht').2.2
      omega
    rw [hnil]
    rfl
  · exact ReverseIPAddress_of_To4_none _ (To4_ParseIP_none strict s hm)

/-- Witness of C2 (amended) at the empty text, `1.2.x.4`, `999.1.1.1` and the IPv6
literal `2001:db8::1`. -/
theorem C2_invalid_address_amended_witness :
    ReverseIPAddress (ParseIP true "".toList) = ([], some invalidIPv4)
    ∧ ReverseIPAddress (ParseIP true "1.2.x.4".toList) = ([], some invalidIPv4)
    ∧ ReverseIPAddress (ParseIP true "999.1.1.1".toList) = ([], some invalidIPv4)
    ∧ ReverseIPAddress (ParseIP true "2001:db8::1".toList) = ([], some invalidIPv4) :=
  ⟨C2_invalid_address_amended true "".toList (Or.inl rfl),
    C2_invalid_address_amended true "1.2.x.4".toList (Or.inr (Or.inl (by decide))),
    C2_invalid_address_amended true "999.1.1.1".toList
      (Or.inr (Or.inr (Or.inl (by decide)))),
    C2_invalid_address_amended true "2001:db8::1".toList
      (Or.inr (Or.inr (Or.inr (by decide))))⟩

/-- C3. For every reversed root, every zone list and every behaviour of the resolver,
the handler's loop leaves in `jsonResp` exactly one result per zone, and the `RblServer`
fields of the results are the zones, in the order of the zone list. -/
theorem C3_one_result_per_zone (resolver : Resolver) (reverseIP : GoString)
    (rblServers : List GoString) :
    (queryZones resolver reverseIP rblServers).jsonResp.length = rblServers.length
    ∧ (queryZones resolver reverseIP rblServers).jsonResp.map Resp.RblServer
        = rblServers := by
  obtain ⟨-, hlen, hget⟩ := queryZones_spec resolver reverseIP rblServers
  refine ⟨hlen, ?_⟩
  apply List.ext_getElem?
  intro i
  by_cases hi : i < rblServers.length
  · rw [List.getElem?_map, hget i hi, Option.map_some', zoneResp_RblServer]
    simp [List.getElem?_eq_getElem hi]
  · have h1 : rblServers.length ≤ i := by omega
    rw [List.getElem?_eq_none h1, List.getElem?_eq_none (by simpa [hlen] using h1)]

/-- C4. A call of `net.LookupIP` asks the resolver for exactly the name it is given
and adds that name to the log of lookups.  After the handler's loop the log holds, one
per zone and in the order of the zone list, the names `reverseIP ++ "." ++ zone ++ "."`,
and the result of zone `i` is read off the resolver's answer to the `i`-th lookup for
exactly that name.  For the address 1.2.3.4 and the zone list `zen.spamhaus.org` the
handler issues the single lookup of `4.3.2.1.zen.spamhaus.org.`, whatever the resolver
answers. -/
theorem C4_lookup_names (strict : Bool) (resolver : Resolver) (reverseIP : GoString)
    (rblServers : List GoString) :
    (∀ (asked : List GoString) (host : GoString),
        LookupIP resolver asked host
          = (match resolver asked.length host with
              | Except.error e => (none, some e)
              | Except.ok addrs => (some addrs, none),
             asked ++ [host]))
    ∧ (queryZones resolver reverseIP rblServers).lookups
        = rblServers.map (fun zone => reverseIP ++ ['.'] ++ zone ++ ['.'])
    ∧ (∀ (i : Nat) (zone : GoString), rblServers[i]? = some zone →
        (queryZones resolver reverseIP rblServers).jsonResp[i]?
          = some (match resolver i (reverseIP ++ ['.'] ++ zone ++ ['.']) with
              | Except.error _ => { RblServer := zone, IsMatch := false, IPs := none }
              | Except.ok addrs => { RblServer := zone, IsMatch := true, IPs := some addrs }))
    ∧ (queryHandler strict "zen.spamhaus.org".toList resolver "1.2.3.4".toList).lookups
        = ["4.3.2.1.zen.spamhaus.org.".toList] := by
  have hname : ∀ (rev zone : GoString), rev ++ ['.'] ++ zone ++ ['.'] = queryName rev zone := by
    intro rev zone
    simp [queryName]
  have hq : ∀ (r : Resolver) (rev : GoString) (zs : List GoString),
      (queryZones r rev zs).lookups = zs.map (fun zone => rev ++ ['.'] ++ zone ++ ['.']) := by
    intro r rev zs
    rw [(queryZones_spec r rev zs).1]
    apply List.map_congr_left
    intro z _
    exact (hname rev z).symm
  refine ⟨?_, hq _ _ _, ?_, ?_⟩
  · intro asked host
    unfold LookupIP
    cases resolver asked.length host <;> rfl
  · intro i zone hz
    have hi : i < rblServers.length := by
      by_contra hge
      rw [List.getElem?_eq_none (by omega)] at hz
      exact absurd hz (by simp)
    have hzone : rblServers.getD i [] = zone := by
      rw [List.getD_eq_getElem?_getD, hz]
      rfl
    rw [(queryZones_spec resolver reverseIP rblServers).2.2 i hi, hzone, hname]
    rfl
  · have hp : ParseIP strict "1.2.3.4".toList = IPv4 1 2 3 4 := by
      cases strict <;> decide
    have hr : ReverseIPAddress (IPv4 1 2 3 4) = ("4.3.2.1".toList, none) := by decide
    have hs : Split "zen.spamhaus.org".toList ',' = ["zen.spamhaus.org".toList] := by
      decide
    simp only [queryHandler, hp, hr, hs, hq]
    decide

/-- C5. If the lookup for zone `i` returns an error, entry `i` of the result has that
zone, `IsMatch = false` and the nil (empty) address list; the loop still has one result
and one lookup per zone; and the result of any zone `j` is the same under any other
resolver that answers the lookup of zone `j` alike, so a failure elsewhere does not
change it. -/
theorem C5_failed_lookup (resolver : Resolver) (reverseIP : GoString)
    (rblServers : List GoString) (i : Nat) (e : GoString) (hi : i < rblServers.length)
    (herr : resolver i (queryName reverseIP (rblServers.getD i [])) = Except.error e) :
    (queryZones resolver reverseIP rblServers).jsonResp[i]?
        = some { RblServer := rblServers.getD i [], IsMatch := false, IPs := none }
    ∧ (queryZones resolver reverseIP rblServers).jsonResp.length = rblServers.length
    ∧ (queryZones resolver reverseIP rblServers).lookups.length = rblServers.length
    ∧ ∀ (resolver2 : Resolver) (j : Nat), j < rblServers.length →
        resolver2 j (queryName reverseIP (rblServers.getD j []))
          = resolver j (queryName reverseIP (rblServers.getD j [])) →
        (queryZones resolver2 reverseIP rblServers).jsonResp[j]?
          = (queryZones resolver reverseIP rblServers).jsonResp[j]? := by
  obtain ⟨hl, hlen, hget⟩ := queryZones_spec resolver reverseIP rblServers
  refine ⟨?_, hlen, by rw [hl, List.length_map], ?_⟩
  · rw [hget i hi]
    simp only [zoneResp, herr]
  · intro resolver2 j hj hsame
    rw [hget j hj, (queryZones_spec resolver2 reverseIP rblServers).2.2 j hj]
    simp only [zoneResp, hsame]

/-- Witness of C5: one zone `test.invalid` whose lookup fails. -/
theorem C5_failed_lookup_witness :
    (queryZones (fun _ _ => Except.error "no such host".toList) "4.3.2.1".toList
        ["test.invalid".toList]).jsonResp[0]?
      = some { RblServer := "test.invalid".toList, IsMatch := false, IPs := none } :=
  (C5_failed_lookup (fun _ _ => Except.error "no such host".toList) "4.3.2.1".toList
    ["test.invalid".toList] 0 "no such host".toList (by decide) rfl).1

/-- C6. If the lookup for zone `i` returns without error, whatever addresses it returns
(also none at all), entry `i` of the result has that zone, `IsMatch = true` and exactly
the returned address list. -/
theorem C6_successful_lookup (resolver : Resolver) (reverseIP : GoString)
    (rblServers : List GoString) (i : Nat) (addrs : List IP) (hi : i < rblServers.length)
    (hok : resolver i (queryName reverseIP (rblServers.getD i [])) = Except.ok addrs) :
    (queryZones resolver reverseIP rblServers).jsonResp[i]?
      = some { RblServer := rblServers.getD i [], IsMatch := true, IPs := some addrs } := by
  rw [(queryZones_spec resolver reverseIP rblServers).2.2 i hi]
  simp only [zoneResp, hok]

/-- Witness of C6: the second of two zones resolves to 127.0.0.2 and 127.0.0.4. -/
theorem C6_successful_lookup_witness :
    (queryZones (fun k _ => if k = 1 then Except.ok [[127, 0, 0, 2], [127, 0, 0, 4]]
          else Except.error "no such host".toList) "4.3.2.1".toList
        ["a.example".toList, "b.example".toList]).jsonResp[1]?
      = some { RblServer := "b.example".toList, IsMatch := true,
               IPs := some [[127, 0, 0, 2], [127, 0, 0, 4]] } :=
  C6_successful_lookup _ "4.3.2.1".toList ["a.example".toList, "b.example".toList] 1
    [[127, 0, 0, 2], [127, 0, 0, 4]] (by decide) rfl

/-- C7, as stated, fails: the texts `::ffff:1.2.3.4` and `::ffff:102:304` are not IPv4
texts (they are IPv6 literals), yet for them the handler answers with status 200 and a
zone result, after looking up `4.3.2.1.test.invalid.`. -/
theorem C7_ipv6_literal_counterexample :
    isIPv4Text true "::ffff:1.2.3.4".toList = false
    ∧ queryHandler true "test.invalid".toList
        (fun _ _ => Except.error "no such host".toList) "::ffff:1.2.3.4".toList
      = { status := 200
          payload := Payload.results
            [{ RblServer := "test.invalid".toList, IsMatch := false, IPs := none }]
          lookups := ["4.3.2.1.test.invalid.".toList] }
    ∧ isIPv4Text true "::ffff:102:304".toList = false
    ∧ queryHandler true "test.invalid".toList
        (fun _ _ => Except.error "no such host".toList) "::ffff:102:304".toList
      = { status := 200
          payload := Payload.results
            [{ RblServer := "test.invalid".toList, IsMatch := false, IPs := none }]
          lookups := ["4.3.2.1.test.invalid.".toList] }
    ∧ queryHandler false "test.invalid".toList
        (fun _ _ => Except.error "no such host".toList) "::ffff:1.2.3.4".toList
      = { status := 200
          payload := Payload.results
            [{ RblServer := "test.invalid".toList, IsMatch := false, IPs := none }]
          lookups := ["4.3.2.1.test.invalid.".toList] } := by
  decide

/-- C7, amended. For a candidate text that is not a dotted-decimal IPv4 text (e.g.
`not-an-ip`) and that, if it has a colon (an IPv6 literal), does not parse to an
IPv4-mapped address `::ffff:a.b.c.d`, the handler answers with status 500 (not 2xx) and
the JSON object `{"error":"Invalid IPv4 address"}`; it gives no zone results and issues
no lookup, whatever the zone list and the resolver. -/
theorem C7_invalid_request_amended (strict : Bool) (rblHost : GoString)
    (resolver : Resolver) (param : GoString)
    (h4 : isIPv4Text strict param = false)
    (h6 : ':' ∈ param → isV4Mapped (ParseIP strict param) = false) :
    queryHandler strict rblHost resolver param
        = { status := 500, payload := Payload.errorH invalidIPv4, lookups := [] }
    ∧ ¬ (200 ≤ (queryHandler strict rblHost resolver param).status
          ∧ (queryHandler strict rblHost resolver param).status < 300)
    ∧ jsonBody (queryHandler strict rblHost resolver param).payload
        = some "\x7b\"error\":\"Invalid IPv4 address\"\x7d".toList := by
  have hnone := To4_ParseIP_none_of_text strict param h4 h6
  have hq : queryHandler strict rblHost resolver param
      = { status := 500, payload := Payload.errorH invalidIPv4, lookups := [] } := by
    simp only [queryHandler, ReverseIPAddress_of_To4_none _ hnone]
  rw [hq]
  exact ⟨rfl, by decide, by decide⟩

/-- Witness of C7 (amended) at the requests `GET /query/not-an-ip` and
`GET /query/2001:db8::1`, with the default zones and a resolver that would find every
name. -/
theorem C7_invalid_request_amended_witness :
    queryHandler true defaultRblHost (fun _ _ => Except.ok [[127, 0, 0, 2]])
        "not-an-ip".toList
      = { status := 500, payload := Payload.errorH invalidIPv4, lookups := [] }
    ∧ queryHandler true defaultRblHost (fun _ _ => Except.ok [[127, 0, 0, 2]])
        "2001:db8::1".toList
      = { status := 500, payload := Payload.errorH invalidIPv4, lookups := [] } :=
  ⟨(C7_invalid_request_amended true defaultRblHost (fun _ _ => Except.ok [[127, 0, 0, 2]])
      "not-an-ip".toList (by decide) (fun hc => absurd hc (by decide))).1,
   (C7_invalid_request_amended true defaultRblHost (fun _ _ => Except.ok [[127, 0, 0, 2]])
      "2001:db8::1".toList (by decide) (fun _ => by decide)).1⟩

/-- C8, as stated, fails: for `GET /query/1.2.3.4` with the zone list `test.invalid`
whose lookup fails, the status is 200 but the body is not
`[{"RblServer":"test.invalid","IsMatch":false,"IPs":[]}]`: the failed lookup leaves the
nil slice in `IPs`, which is encoded as `null`. -/
theorem C8_body_counterexample :
    (queryHandler true "test.invalid".toList
        (fun _ _ => Except.error "no such host".toList) "1.2.3.4".toList).status = 200
    ∧ jsonBody (queryHandler true "test.invalid".toList
        (fun _ _ => Except.error "no such host".toList) "1.2.3.4".toList).payload
      ≠ some "[\x7b\"RblServer\":\"test.invalid\",\"IsMatch\":false,\"IPs\":[]\x7d]".toList
    ∧ jsonBody (queryHandler true "test.invalid".toList
        (fun _ _ => Except.error "no such host".toList) "1.2.3.4".toList).payload
      = some
        "[\x7b\"RblServer\":\"test.invalid\",\"IsMatch\":false,\"IPs\":null\x7d]".toList := by
  decide

/-- C8, amended. For `GET /query/1.2.3.4` with the zone list `test.invalid` whose lookup
fails, the handler answers with status 200 and a single result with
`RblServer = "test.invalid"`, `IsMatch = false` and the nil address list, after the one
lookup of `4.3.2.1.test.invalid.`; the body is exactly
`[{"RblServer":"test.invalid","IsMatch":false,"IPs":null}]`. -/
theorem C8_end_to_end_amended (strict : Bool) (resolver : Resolver) (e : GoString)
    (herr : resolver 0 "4.3.2.1.test.invalid.".toList = Except.error e) :
    queryHandler strict "test.invalid".toList resolver "1.2.3.4".toList
        = { status := 200
            payload := Payload.results
              [{ RblServer := "test.invalid".toList, IsMatch := false, IPs := none }]
            lookups := ["4.3.2.1.test.invalid.".toList] }
    ∧ jsonBody (queryHandler strict "test.invalid".toList resolver "1.2.3.4".toList).payload
      = some
        "[\x7b\"RblServer\":\"test.invalid\",\"IsMatch\":false,\"IPs\":null\x7d]".toList := by
  have hp : ParseIP strict "1.2.3.4".toList = IPv4 1 2 3 4 := by
    cases strict <;> decide
  have hr : ReverseIPAddress (IPv4 1 2 3 4) = ("4.3.2.1".toList, none) := by decide
  have hs : Split "test.invalid".toList ',' = ["test.invalid".toList] := by decide
  have hz : queryZones resolver "4.3.2.1".toList ["test.invalid".toList]
      = { jsonResp := [{ RblServer := "test.invalid".toList, IsMatch := false, IPs := none }]
          lookups := ["4.3.2.1.test.invalid.".toList] } := by
    have hq : queryName "4.3.2.1".toList "test.invalid".toList
        = "4.3.2.1.test.invalid.".toList := by decide
    have hrange : List.range 1 = [0] := rfl
    simp only [queryZones, List.length_singleton, hrange, List.foldl_cons,
      List.foldl_nil, zoneStep_eq, List.length_nil, List.replicate_one, List.nil_append,
      zoneResp]
    have hg : List.getD ["test.invalid".toList] 0 [] = "test.invalid".toList := rfl
    rw [hg, hq]
    simp only [herr]
    simp
  have hq : queryHandler strict "test.invalid".toList resolver "1.2.3.4".toList
      = { status := 200
          payload := Payload.results
            [{ RblServer := "test.invalid".toList, IsMatch := false, IPs := none }]
          lookups := ["4.3.2.1.test.invalid.".toList] } := by
    simp only [queryHandler, hp, hr, hs, hz]
  rw [hq]
  exact ⟨rfl, by decide⟩

/-- Witness of C8 (amended) with a resolver that fails every lookup. -/
theorem C8_end_to_end_amended_witness :
    jsonBody (queryHandler true "test.invalid".toList
        (fun _ _ => Except.error "no such host".toList) "1.2.3.4".toList).payload
      = some
        "[\x7b\"RblServer\":\"test.invalid\",\"IsMatch\":false,\"IPs\":null\x7d]".toList :=
  (C8_end_to_end_amended true (fun _ _ => Except.error "no such host".toList)
    "no such host".toList rfl).2

/-- C9. Reversal is an involution on valid IPv4 addresses: for an address that `To4`
reads as `a.b.c.d` (octets 0..255), `ReverseIPAddress` returns the dotted-decimal text
`d.c.b.a`, which `net.ParseIP` parses to the IPv4 address d.c.b.a; applying
`ReverseIPAddress` to that address returns, with a nil error, the dotted-decimal text
`a.b.c.d` of the original address. -/
theorem C9_reverse_involution (strict : Bool) (ip : IP) (a b c d : Nat)
    (ha : a < 256) (hb : b < 256) (hc : c < 256) (hd : d < 256)
    (h : IP.To4 ip = some [a, b, c, d]) :
    (ReverseIPAddress ip).1 = dotted d c b a
    ∧ ParseIP strict (ReverseIPAddress ip).1 = IPv4 d c b a
    ∧ IP.To4 (ParseIP strict (ReverseIPAddress ip).1) = some [d, c, b, a]
    ∧ ReverseIPAddress (ParseIP strict (ReverseIPAddress ip).1) = (IP.String ip, none)
    ∧ IP.String ip = dotted a b c d := by
  have h1 := ReverseIPAddress_of_To4 ip a b c d ha hb hc hd h
  have h2 := ParseIP_dotted strict d c b a hd hc hb ha
  have h3 : (ReverseIPAddress ip).1 = dotted d c b a := by rw [h1]
  rw [h3, h2]
  exact ⟨rfl, rfl, To4_IPv4 d c b a,
    by rw [String_of_To4 ip a b c d h]
       exact ReverseIPAddress_of_To4 _ d c b a hd hc hb ha (To4_IPv4 d c b a),
    String_of_To4 ip a b c d h⟩

/-- Witness of C9 at the address 192.168.1.10 in its 16-byte form. -/
theorem C9_reverse_involution_witness :
    ReverseIPAddress (ParseIP true (ReverseIPAddress (IPv4 192 168 1 10)).1)
      = (IP.String (IPv4 192 168 1 10), none) :=
  (C9_reverse_involution true (IPv4 192 168 1 10) 192 168 1 10 (by decide) (by decide)
    (by decide) (by decide) (by decide)).2.2.2.1

theorem Count_dotted (a b c d : Nat)
    (ha : a < 256) (hb : b < 256) (hc : c < 256) (hd : d < 256) :
    Count (dotted a b c d) '.' = 3 := by
  unfold dotted
  rw [Count_append_sep _ _ _ (dot_not_mem_ubtoa a ha),
    Count_append_sep _ _ _ (dot_not_mem_ubtoa b hb),
    Count_append_sep _ _ _ (dot_not_mem_ubtoa c hc),
    Count_of_not_mem _ _ (dot_not_mem_ubtoa d hd)]

/-- C10. For a byte slice `ip`: `ReverseIPAddress` returns an error exactly when
`ip.To4()` is nil, which is exactly when `ip` is neither 4 bytes long nor a 16-byte
IPv4-mapped address; the text returned with the error is empty.  Otherwise `ip` is the
4-byte or the 16-byte form of an address `a.b.c.d`, both forms give the same result,
with a nil error, and the text is `d.c.b.a`.  That text has exactly three dots; the
four labels they separate are each a non-empty run of decimal digits, without leading
zero, denoting a number in 0..255; the numbers are the octets of the address in reverse
order; and the text is the labels joined by dots. -/
theorem C10_error_iff_To4_nil (ip : IP) (hbytes : validBytes ip) :
    ((ReverseIPAddress ip).2 ≠ none ↔ IP.To4 ip = none)
    ∧ (IP.To4 ip = none ↔ ¬ (ip.length = 4 ∨ (ip.length = 16 ∧ v4InV6Prefix <+: ip)))
    ∧ ((ReverseIPAddress ip).2 ≠ none → (ReverseIPAddress ip).1 = [])
    ∧ (IP.To4 ip ≠ none → ∃ a b c d, a < 256 ∧ b < 256 ∧ c < 256 ∧ d < 256
        ∧ (ip = [a, b, c, d] ∨ ip = IPv4 a b c d)
        ∧ ReverseIPAddress [a, b, c, d] = ReverseIPAddress ip
        ∧ ReverseIPAddress (IPv4 a b c d) = ReverseIPAddress ip
        ∧ ReverseIPAddress ip = (dotted d c b a, none)
        ∧ Split (dotted d c b a) '.' = [ubtoa d, ubtoa c, ubtoa b, ubtoa a]
        ∧ Count (dotted d c b a) '.' = 3
        ∧ [decVal (ubtoa d), decVal (ubtoa c), decVal (ubtoa b), decVal (ubtoa a)]
            = [d, c, b, a])
    ∧ (IP.To4 ip ≠ none →
        (ReverseIPAddress ip).2 = none
        ∧ Count (ReverseIPAddress ip).1 '.' = 3
        ∧ (Split (ReverseIPAddress ip).1 '.').length = 4
        ∧ (∀ l ∈ Split (ReverseIPAddress ip).1 '.',
            l ≠ [] ∧ (∀ ch ∈ l, isDigit ch = true) ∧ decVal l ≤ 255
              ∧ (1 < l.length → l.head? ≠ some '0'))
        ∧ (Split (ReverseIPAddress ip).1 '.').map decVal = ((IP.To4 ip).getD []).reverse
        ∧ Join (Split (ReverseIPAddress ip).1 '.') ['.'] = (ReverseIPAddress ip).1) := by
  rcases To4_cases ip with ⟨hnone, hshape⟩ | ⟨a, b, c, d, hsome, hform, hshape⟩
  · have hr := ReverseIPAddress_of_To4_none ip hnone
    refine ⟨?_, ?_, ?_, ?_, ?_⟩
    · simp [hr, hnone]
    · simp only [hnone, true_iff]
      exact hshape
    · intro _
      rw [hr]
    · intro hne
      exact absurd hnone hne
    · intro hne
      exact absurd hnone hne
  · have hmem : ∀ x ∈ [a, b, c, d], x < 256 := by
      intro x hx
      apply hbytes
      rcases hform with e | e
      · rw [e]
        exact hx
      · rw [e]
        simp only [IPv4, List.mem_append]
        exact Or.inr hx
    have ha : a < 256 := hmem a (by simp)
    have hb : b < 256 := hmem b (by simp)
    have hc : c < 256 := hmem c (by simp)
    have hd : d < 256 := hmem d (by simp)
    have hr := ReverseIPAddress_of_To4 ip a b c d ha hb hc hd hsome
    refine ⟨?_, ?_, ?_, ?_, ?_⟩
    · simp [hr, hsome]
    · simp only [hsome, reduceCtorEq, false_iff, not_not]
      exact hshape
    · intro hne
      rw [hr] at hne
      exact absurd rfl hne
    · intro _
      refine ⟨a, b, c, d, ha, hb, hc, hd, hform, ?_, ?_, hr, ?_, ?_, ?_⟩
      · rw [hr]
        exact ReverseIPAddress_of_To4 _ a b c d ha hb hc hd (To4_four a b c d)
      · rw [hr]
        exact ReverseIPAddress_of_To4 _ a b c d ha hb hc hd (To4_IPv4 a b c d)
      · exact Split_dotted d c b a hd hc hb ha
      · exact Count_dotted d c b a hd hc hb ha
      · rw [(ubtoa_facts a ha).2.1, (ubtoa_facts b hb).2.1, (ubtoa_facts c hc).2.1,
          (ubtoa_facts d hd).2.1]
    · intro _
      have hsplit := Split_dotted d c b a hd hc hb ha
      have hlab : ∀ x, x < 256 → ubtoa x ≠ [] ∧ (∀ ch ∈ ubtoa x, isDigit ch = true)
          ∧ decVal (ubtoa x) ≤ 255 ∧ (1 < (ubtoa x).length → (ubtoa x).head? ≠ some '0') := by
        intro x hx
        obtain ⟨ho, hv, -, hz⟩ := ubtoa_facts x hx
        obtain ⟨h1, h2, h3⟩ := (isOctetText_iff (ubtoa x)).mp ho
        exact ⟨h2, h1, h3, hz⟩
      have e1 : (ReverseIPAddress ip).1 = dotted d c b a := by rw [hr]
      have e2 : (ReverseIPAddress ip).2 = none := by rw [hr]
      rw [e1, hsplit, hsome]
      refine ⟨e2, Count_dotted d c b a hd hc hb ha, rfl, ?_, ?_, ?_⟩
      · intro l hl
        simp only [List.mem_cons, List.mem_singleton, List.not_mem_nil, or_false] at hl
        rcases hl with rfl | rfl | rfl | rfl
        · exact hlab d hd
        · exact hlab c hc
        · exact hlab b hb
        · exact hlab a ha
      · simp [(ubtoa_facts a ha).2.1, (ubtoa_facts b hb).2.1, (ubtoa_facts c hc).2.1,
          (ubtoa_facts d hd).2.1]
      · simp [Join, dotted]

/-- Witness of C10 at a 6-byte slice, on which `To4` is nil and the error is returned,
and at the 4-byte address 10.200.3.4, whose reversed text `4.3.200.10` has the four
decimal labels of 4, 3, 200 and 10. -/
theorem C10_error_iff_To4_nil_witness :
    validBytes [1, 2, 3, 4, 5, 6]
    ∧ ((ReverseIPAddress [1, 2, 3, 4, 5, 6]).2 ≠ none ↔ IP.To4 [1, 2, 3, 4, 5, 6] = none)
    ∧ ReverseIPAddress [1, 2, 3, 4, 5, 6] = ([], some invalidIPv4)
    ∧ validBytes [10, 200, 3, 4]
    ∧ ReverseIPAddress [10, 200, 3, 4] = ("4.3.200.10".toList, none)
    ∧ ((ReverseIPAddress [10, 200, 3, 4]).2 = none
        ∧ Count (ReverseIPAddress [10, 200, 3, 4]).1 '.' = 3
        ∧ (Split (ReverseIPAddress [10, 200, 3, 4]).1 '.').length = 4
        ∧ (∀ l ∈ Split (ReverseIPAddress [10, 200, 3, 4]).1 '.',
            l ≠ [] ∧ (∀ ch ∈ l, isDigit ch = true) ∧ decVal l ≤ 255
              ∧ (1 < l.length → l.head? ≠ some '0'))
        ∧ (Split (ReverseIPAddress [10, 200, 3, 4]).1 '.').map decVal
            = ((IP.To4 [10, 200, 3, 4]).getD []).reverse
        ∧ Join (Split (ReverseIPAddress [10, 200, 3, 4]).1 '.') ['.']
            = (ReverseIPAddress [10, 200, 3, 4]).1) :=
  ⟨by decide, (C10_error_iff_To4_nil [1, 2, 3, 4, 5, 6] (by decide)).1, by decide,
    by decide, by decide,
    (C10_error_iff_To4_nil [10, 200, 3, 4] (by decide)).2.2.2.2 (by decide)⟩

/-! ## Further properties of the handler -/

theorem Count_pos_split (s : GoString) (sep : Char) (h : 0 < Count s sep) :
    ∃ f rest, s = f ++ sep :: rest ∧ sep ∉ f := by
  induction s with
  | nil => simp [Count] at h
  | cons c cs ih =>
    by_cases hc : c = sep
    · exact ⟨[], cs, by simp [hc], by simp⟩
    · have h' : 0 < Count cs sep := by simpa [Count, hc] using h
      obtain ⟨f, rest, e, hf⟩ := ih h'
      refine ⟨c :: f, rest, by simp [e], ?_⟩
      intro hm
      rcases List.mem_cons.mp hm with e1 | e1
      · exact hc e1.symm
      · exact hf e1

theorem Count_eq_zero_not_mem (s : GoString) (sep : Char) (h : Count s sep = 0) :
    sep ∉ s := by
  induction s with
  | nil => simp
  | cons c cs ih =>
    by_cases hc : c = sep
    · simp [Count, hc] at h
    · have h' : Count cs sep = 0 := by simpa [Count, hc] using h
      intro hm
      rcases List.mem_cons.mp hm with e1 | e1
      · exact hc e1.symm
      · exact ih h' e1

/-- X1. `strings.Split` returns one field more than there are separators, so the zone
list the handler builds from `rblHost` is never empty. -/
theorem X1_zone_list_nonempty (rblHost : GoString) :
    (Split rblHost ',').length = Count rblHost ',' + 1 ∧ Split rblHost ',' ≠ [] := by
  have key : ∀ n (s : GoString), Count s ',' = n → (Split s ',').length = n + 1 := by
    intro n
    induction n with
    | zero =>
      intro s hs
      rw [Split_of_not_mem s ',' (Count_eq_zero_not_mem s ',' hs)]
      rfl
    | succ n ih =>
      intro s hs
      obtain ⟨f, rest, e, hf⟩ := Count_pos_split s ',' (by omega)
      subst e
      rw [Count_append_sep f rest ',' hf] at hs
      rw [Split_append_sep f rest ',' hf, List.length_cons, ih rest (by omega)]
  have hlen := key _ rblHost rfl
  refine ⟨hlen, ?_⟩
  intro h0
  rw [h0] at hlen
  simp at hlen

/-- X2. For a candidate text that parses to the IPv4 address `a.b.c.d`, the handler
answers with status 200 and the results of the zone loop run on the reversed text
`d.c.b.a`, after one lookup per zone of `rblHost`, in order. -/
theorem X2_valid_request (strict : Bool) (rblHost : GoString) (resolver : Resolver)
    (param : GoString) (a b c d : Nat)
    (ha : a < 256) (hb : b < 256) (hc : c < 256) (hd : d < 256)
    (h : ParseIP strict param = IPv4 a b c d) :
    queryHandler strict rblHost resolver param
      = { status := 200
          payload := Payload.results
            (queryZones resolver (dotted d c b a) (Split rblHost ',')).jsonResp
          lookups := (Split rblHost ',').map (queryName (dotted d c b a)) } := by
  have hr := ReverseIPAddress_of_To4 _ a b c d ha hb hc hd (To4_IPv4 a b c d)
  simp only [queryHandler, h, hr, (queryZones_spec resolver _ _).1]

/-- Witness of X2 at `GET /query/127.0.0.2` with two zones. -/
theorem X2_valid_request_witness :
    (queryHandler true "a.example,b.example".toList (fun _ _ => Except.ok [[127, 0, 0, 2]])
        "127.0.0.2".toList).lookups
      = ["2.0.0.127.a.example.".toList, "2.0.0.127.b.example.".toList] :=
  congrArg Response.lookups
    (X2_valid_request true "a.example,b.example".toList (fun _ _ => Except.ok [[127, 0, 0, 2]])
      "127.0.0.2".toList 127 0 0 2 (by decide) (by decide) (by decide) (by decide)
      (by decide))

/-- X3. With `RBL_DNS_LOOKUP` unset, the zone list is the four default zones. -/
theorem X3_default_zones :
    Split (loadRblHost []) ','
      = ["zen.spamhaus.org".toList, "bl.score.senderscore.com".toList,
         "b.barracudacentral.org".toList, "bl.spamcop.net".toList] := by
  decide

end AtmailRbl
